import Mathlib

/-!
Verification development for the CrownDesk AI service voice-call core:
the HIPAA guardrail engine (`ai_service/services/guardrails.py`), the
Retell call-session controller (`ai_service/routers/retell.py`) and the
scheduling service layer (`ai_service/services/retell_service.py`).

The Python code is shallowly embedded: strings are `List Char`, the
regular expressions used by the guardrail engine are embedded by a small
executable matcher faithful to the backtracking semantics of Python `re`
for the constructs those patterns use (ordered alternation, greedy
quantifiers, character classes, the dot, and word boundaries), and the
stateful controller is embedded as explicit state passing.
-/

/-- Python regex word character test (ASCII range, as used by the
source patterns): `[A-Za-z0-9_]`. -/
def isWordChar (c : Char) : Bool :=
  (('a' ≤ c && c ≤ 'z') || ('A' ≤ c && c ≤ 'Z') || ('0' ≤ c && c ≤ '9') || c = '_')

/-- Regex abstract syntax for the subset of Python `re` used by
`guardrails.py`: literal characters, finite character classes, the dot
(any character except newline), concatenation, ordered alternation and
the greedy star. Word boundaries occur only at the outer ends of the PII
patterns and are handled separately by the match driver. -/
inductive Rx where
  | eps : Rx
  | chr : Char → Rx
  | cls : List Char → Rx
  | dot : Rx
  | seq : Rx → Rx → Rx
  | alt : Rx → Rx → Rx
  | star : Rx → Rx
deriving DecidableEq, Repr

/-- Structural size of a pattern, used to compute a sufficient
recursion fuel for the matcher. -/
def rsize : Rx → Nat
  | Rx.eps => 1
  | Rx.chr _ => 1
  | Rx.cls _ => 1
  | Rx.dot => 1
  | Rx.seq p q => rsize p + rsize q + 1
  | Rx.alt p q => rsize p + rsize q + 1
  | Rx.star p => rsize p + 1

/-- Candidate lengths of prefixes of `s` consumed by `r`, listed in the
backtracking preference order of the Python `re` engine (greedy
quantifiers try longer consumption first, alternation tries the left
branch first). `fuel` bounds the recursion depth; every star iteration
is required to consume at least one character, matching the engine's
refusal to loop on empty repetitions. -/
def cands : Nat → Rx → List Char → List Nat
  | 0, _, _ => []
  | _ + 1, Rx.eps, _ => [0]
  | _ + 1, Rx.chr _, [] => []
  | _ + 1, Rx.chr c, a :: _ => if a = c then [1] else []
  | _ + 1, Rx.cls _, [] => []
  | _ + 1, Rx.cls cs, a :: _ => if cs.contains a then [1] else []
  | _ + 1, Rx.dot, [] => []
  | _ + 1, Rx.dot, a :: _ => if a = Char.ofNat 10 then [] else [1]
  | fuel + 1, Rx.seq p q, s =>
      (cands fuel p s).flatMap (fun l => (cands fuel q (s.drop l)).map (fun m => l + m))
  | fuel + 1, Rx.alt p q, s => cands fuel p s ++ cands fuel q s
  | fuel + 1, Rx.star p, s =>
      ((cands fuel p s).filter (fun l => 0 < l)).flatMap
        (fun l => (cands fuel (Rx.star p) (s.drop l)).map (fun m => l + m)) ++ [0]

/-- Candidate consumption lengths computed with fuel provably
sufficient for any derivation over `s`. -/
def candsTop (r : Rx) (s : List Char) : List Nat :=
  cands ((s.length + 1) * rsize r) r s

/-- Python `re.search` for a pattern with no word-boundary anchors:
true when the pattern matches starting at some position of `s`. -/
def reSearch (r : Rx) (s : List Char) : Bool :=
  (List.range (s.length + 1)).any (fun i => !(candsTop r (s.drop i)).isEmpty)

/-- Sequence of the elements of a string literal. -/
def rxOfList : List Char → Rx
  | [] => Rx.eps
  | c :: cs => Rx.seq (Rx.chr c) (rxOfList cs)

/-- Literal-string pattern. -/
def rxS (s : String) : Rx := rxOfList s.data

/-- Ordered alternation of a list of branches, left branch preferred,
as in a Python group `(a|b|c)`. -/
def rxAlts : List Rx → Rx
  | [] => Rx.eps
  | [r] => r
  | r :: rs => Rx.alt r (rxAlts rs)

/-- Alternation of literal strings. -/
def rxAltS (ss : List String) : Rx := rxAlts (ss.map rxS)

/-- Greedy `.*`. -/
def rxDotStar : Rx := Rx.star Rx.dot

/-- Apostrophe character, kept out of string literals. -/
def apoC : Char := Char.ofNat 39

/-- Apostrophe as a one-character string. -/
def apoS : String := String.mk [apoC]

/-- Splice an apostrophe between two string fragments. -/
def sQ (a b : String) : String := a ++ apoS ++ b

example : reSearch (rxS "abc") "xxabcy".data = true := by decide
example : reSearch (rxS "abc") "xxaby".data = false := by decide
example : reSearch (Rx.seq (rxS "ab") (Rx.seq rxDotStar (rxS "cd"))) "zabzzcdz".data = true := by
  decide

/-! ## Guardrail engine (`HIPAAGuardrails`, guardrails.py)

The pattern lists below transcribe `self.diagnosis_patterns`,
`self.coverage_guarantee_patterns` and `self.emergency_patterns` from
`HIPAAGuardrails.__init__`. -/

/-- Embedded `self.emergency_patterns`. -/
def emergencyPatterns : List Rx :=
  [ rxAlts [rxS (sQ "can" "t breathe"), rxS "chest pain", rxS "heart attack",
      rxS "stroke", rxS "unconscious"],
    Rx.seq (rxAltS ["severe", "extreme", "intense"])
      (Rx.seq rxDotStar (rxAltS ["pain", "bleeding", "swelling"])),
    rxAltS ["emergency", "urgent", "immediately", "right now"],
    rxAltS ["choking", "allergic reaction", "anaphylaxis"],
    rxAltS ["suicide", "kill myself", "want to die", "harm myself"] ]

/-- Embedded `self.diagnosis_patterns`. -/
def diagnosisPatterns : List Rx :=
  [ rxAlts [rxS "do i have", rxS "diagnose", rxS "diagnosis",
      Rx.seq (rxS "what") (Rx.seq (Rx.alt (rxS (sQ "" "s")) (rxS " is")) (rxS " wrong")),
      rxS "what condition"],
    Rx.seq (rxAltS ["is it", "could it be", "might be", "probably have"])
      (Rx.seq rxDotStar (rxAltS ["cancer", "disease", "infection", "virus"])),
    Rx.seq (rxAlts
        [Rx.seq (rxS "what") (Rx.seq (Rx.alt (rxS (sQ "" "s")) (rxS " is")) (rxS " causing")),
         rxS "why do i have", rxS "why am i"])
      (Rx.seq rxDotStar (rxAltS ["pain", "symptoms", "problem"])),
    Rx.seq (rxS "should i ") (Rx.seq (rxAltS ["take", "stop taking", "change"])
      (Rx.seq rxDotStar (rxAltS ["medication", "medicine", "pills", "drugs"]))),
    rxAltS ["prescription", "prescribe", "medication recommendation"] ]

/-- Embedded `self.coverage_guarantee_patterns`. -/
def coveragePatterns : List Rx :=
  [ Rx.seq (rxAltS ["will", "does"]) (Rx.seq rxDotStar
      (Rx.seq (rxAltS ["insurance", "my plan"]) (Rx.seq rxDotStar (rxAltS ["cover", "pay for"])))),
    Rx.seq (rxS "how much ") (Rx.seq (rxAltS ["will", "does"]) (Rx.seq (rxS " ")
      (Rx.seq (rxAltS ["my", "the"]) (Rx.seq (rxS " insurance ") (rxAltS ["cover", "pay"]))))),
    Rx.seq (rxAltS ["guarantee", "promise"]) (Rx.seq rxDotStar
      (rxAltS ["coverage", "payment", "cost"])),
    Rx.seq (rxS "exactly how much ") (Rx.seq (rxAltS ["will i", "do i have to"]) (rxS " pay")) ]

/-- Canned response for blocked diagnosis requests
(`self.blocked_responses` in the source, apostrophes spliced in). -/
def diagnosisResponse : String :=
  "I" ++ apoS ++ "m not able to provide medical diagnoses. I" ++ apoS ++
  "d recommend scheduling an appointment with one of our dentists who can properly examine you and provide a professional assessment. Would you like me to help you schedule an appointment?"

/-- Canned response for blocked coverage-guarantee requests. -/
def coverageResponse : String :=
  "I can" ++ apoS ++ "t guarantee specific coverage amounts as that depends on your individual plan and circumstances. Our billing team can give you accurate estimates once they review your insurance details. Would you like me to connect you with them?"

/-- Canned response for emergency language. -/
def emergencyResponse : String :=
  "If this is a medical emergency, please hang up and call 911 immediately, or go to your nearest emergency room. For dental emergencies during office hours, I can try to get you in for an urgent appointment. Is this a life-threatening emergency?"

/-- Result shape of `HIPAAGuardrails.check_message` (the source returns
a dict; `matched_pattern` holds the index of the matching pattern in
its family, standing for the pattern the source records). -/
structure GuardrailCheck where
  blocked : Bool
  guardrail_type : Option String
  message : Option String
  severity : Option String
  matched_pattern : Option Nat
deriving DecidableEq, Repr

/-- Index of the first pattern of the family matching `m`, mirroring
the source's `for pattern in ...: if re.search(pattern, message_lower)`
loops. -/
def firstIdx : List Rx → List Char → Option Nat
  | [], _ => none
  | p :: ps, m => if reSearch p m then some 0 else (firstIdx ps m).map (fun i => i + 1)

/-- Python `str.lower` on the ASCII range covered by the patterns. -/
def pyLower (s : List Char) : List Char := s.map Char.toLower

/-- Embedded `HIPAAGuardrails.check_message`: emergency patterns first,
then diagnosis, then coverage guarantees; first match wins. -/
def check_message (message : List Char) : GuardrailCheck :=
  let ml := pyLower message
  match firstIdx emergencyPatterns ml with
  | some i =>
      { blocked := true, guardrail_type := some "emergency",
        message := some emergencyResponse, severity := some "high", matched_pattern := some i }
  | none =>
    match firstIdx diagnosisPatterns ml with
    | some i =>
        { blocked := true, guardrail_type := some "diagnosis",
          message := some diagnosisResponse, severity := some "medium", matched_pattern := some i }
    | none =>
      match firstIdx coveragePatterns ml with
      | some i =>
          { blocked := true, guardrail_type := some "coverage_guarantee",
            message := some coverageResponse, severity := some "low", matched_pattern := some i }
      | none =>
          { blocked := false, guardrail_type := none,
            message := none, severity := none, matched_pattern := none }

/-- The end-to-end scenario message of spec §8, with its apostrophe. -/
def scenarioTwoMessage : String :=
  "I think I have a severe infection, what" ++ apoS ++ "s wrong with me?"

/-! ## PII scrubbing (`HIPAAGuardrails.scrub_pii`)

Every pattern in `self.pii_patterns` has the shape `\b body \b` with a
word-boundary-free body, so the embedding matches the body with the
backtracking matcher and checks the two boundaries positionally, and
`re.sub` is embedded as a leftmost, non-overlapping scan over the
original string (Python finds all matches against the original text and
splices replacements afterwards). -/

/-- Word-character test on an optional character; the edge of the
string counts as a non-word position. -/
def isWordO : Option Char → Bool
  | none => false
  | some c => isWordChar c

/-- Word-ness of the first character of a suffix. -/
def headWord (s : List Char) : Bool := isWordO s.head?

/-- Match `\b body \b` at the start of suffix `s`, where `pw` is the
word-ness of the character preceding `s`. Returns the length the
backtracking engine commits to: the first candidate, in preference
order, whose trailing boundary holds. The `0 < l` and `l ≤ s.length`
guards are transparent here (none of the five PII bodies can match the
empty string and no candidate exceeds the suffix) and keep the scan
well-founded. -/
def matchAt (body : Rx) (pw : Bool) (s : List Char) : Option Nat :=
  if pw != headWord s then
    (candsTop body s).find?
      (fun l => 0 < l && l ≤ s.length && (isWordO ((s.take l).getLast?) != headWord (s.drop l)))
  else none

/-- Leftmost match of `\b body \b` in `s`: position and committed
length, scanning positions left to right as `re.sub` does. -/
def firstMatch (body : Rx) (pw : Bool) : List Char → Option (Nat × Nat)
  | [] =>
    (match matchAt body pw [] with
     | some l => some (0, l)
     | none => none)
  | c :: rest =>
    (match matchAt body pw (c :: rest) with
     | some l => some (0, l)
     | none => (firstMatch body (isWordChar c) rest).map (fun kl => (kl.1 + 1, kl.2)))

/-- Scanning core of `re.sub`: replace every non-overlapping leftmost
match of `\b body \b` with `marker`, resuming after each match with the
original character context, exactly as Python scans the original
string. Each accepted match consumes at least one character, so the
structural fuel `s.length + 1` supplied by `reSub` is never exhausted. -/
def reSubGo : Nat → Rx → List Char → Bool → List Char → List Char
  | 0, _, _, _, s => s
  | fuel + 1, body, marker, pw, s =>
    match firstMatch body pw s with
    | none => s
    | some (k, l) =>
      s.take k ++ marker ++
        reSubGo fuel body marker (isWordO ((s.take (k + l)).getLast?)) (s.drop (k + l))

/-- Python `re.sub(\b body \b, marker, s)` from the start of the
string. -/
def reSub (body : Rx) (marker : List Char) (s : List Char) : List Char :=
  reSubGo (s.length + 1) body marker false s

/-- Decimal digit class `\d`. -/
def dC : Rx := Rx.cls "0123456789".data

/-- Python `\s` whitespace class (ASCII range). -/
def pyWs : List Char := [' ', Char.ofNat 9, Char.ofNat 10, Char.ofNat 13, Char.ofNat 11, Char.ofNat 12]

/-- ASCII letters. -/
def lettersU : List Char := "ABCDEFGHIJKLMNOPQRSTUVWXYZ".data

/-- ASCII lowercase letters. -/
def lettersL : List Char := "abcdefghijklmnopqrstuvwxyz".data

/-- Fixed repetition `r{n}`. -/
def rep (r : Rx) : Nat → Rx
  | 0 => Rx.eps
  | n + 1 => Rx.seq r (rep r n)

/-- Greedy option `r?` (try consuming first). -/
def ropt (r : Rx) : Rx := Rx.alt r Rx.eps

/-- Greedy plus `r+`. -/
def rplus (r : Rx) : Rx := Rx.seq r (Rx.star r)

/-- Body of the SSN pattern `\b\d{3}[-\s]?\d{2}[-\s]?\d{4}\b`. -/
def ssnBody : Rx :=
  Rx.seq (rep dC 3) (Rx.seq (ropt (Rx.cls ('-' :: pyWs)))
    (Rx.seq (rep dC 2) (Rx.seq (ropt (Rx.cls ('-' :: pyWs))) (rep dC 4))))

/-- Body of the phone pattern `\b\d{3}[-.\s]?\d{3}[-.\s]?\d{4}\b`. -/
def phoneBody : Rx :=
  Rx.seq (rep dC 3) (Rx.seq (ropt (Rx.cls ('-' :: '.' :: pyWs)))
    (Rx.seq (rep dC 3) (Rx.seq (ropt (Rx.cls ('-' :: '.' :: pyWs))) (rep dC 4))))

/-- TLD class `[A-Z|a-z]` of the email pattern — it contains the
literal bar. -/
def tldCls : Rx := Rx.cls (lettersU ++ '|' :: lettersL)

/-- Body of the email pattern
`\b[A-Za-z0-9._%+-]+@[A-Za-z0-9.-]+\.[A-Z|a-z]{2,}\b`. -/
def emailBody : Rx :=
  Rx.seq (rplus (Rx.cls (lettersU ++ lettersL ++ "0123456789._%+-".data)))
    (Rx.seq (Rx.chr '@')
      (Rx.seq (rplus (Rx.cls (lettersU ++ lettersL ++ "0123456789.-".data)))
        (Rx.seq (Rx.chr '.') (Rx.seq tldCls (Rx.seq tldCls (Rx.star tldCls))))))

/-- Body of the date-of-birth pattern: `(0[1-9]|1[0-2])`, a dash-slash
class, `(0[1-9]|[12]\d|3[01])`, a dash-slash class, `(\d{2}|\d{4})`,
all between word boundaries. -/
def dobBody : Rx :=
  Rx.seq (Rx.alt (Rx.seq (Rx.chr '0') (Rx.cls "123456789".data))
                 (Rx.seq (Rx.chr '1') (Rx.cls "012".data)))
    (Rx.seq (Rx.cls "-/".data)
      (Rx.seq (rxAlts [Rx.seq (Rx.chr '0') (Rx.cls "123456789".data),
                       Rx.seq (Rx.cls "12".data) dC,
                       Rx.seq (Rx.chr '3') (Rx.cls "01".data)])
        (Rx.seq (Rx.cls "-/".data) (Rx.alt (rep dC 2) (rep dC 4)))))

/-- Body of the credit-card pattern
`\b\d{4}[-\s]?\d{4}[-\s]?\d{4}[-\s]?\d{4}\b`. -/
def ccBody : Rx :=
  Rx.seq (rep dC 4) (Rx.seq (ropt (Rx.cls ('-' :: pyWs)))
    (Rx.seq (rep dC 4) (Rx.seq (ropt (Rx.cls ('-' :: pyWs)))
      (Rx.seq (rep dC 4) (Rx.seq (ropt (Rx.cls ('-' :: pyWs))) (rep dC 4))))))

/-- The `self.pii_patterns` dictionary in insertion order with the
replacement markers produced by `scrub_pii`. -/
def piiPatterns : List (Rx × List Char) :=
  [ (ssnBody, "[SSN_REDACTED]".data),
    (phoneBody, "[PHONE_REDACTED]".data),
    (emailBody, "[EMAIL_REDACTED]".data),
    (dobBody, "[DOB_REDACTED]".data),
    (ccBody, "[CREDIT_CARD_REDACTED]".data) ]

/-- Embedded `HIPAAGuardrails.scrub_pii`: apply the five substitutions
in dictionary order. -/
def scrub_pii (text : List Char) : List Char :=
  piiPatterns.foldl (fun t bm => reSub bm.1 bm.2 t) text

set_option maxRecDepth 1000000 in
example : scrub_pii "ssn 123-45-6789 ok".data = "ssn [SSN_REDACTED] ok".data := by decide

/-! ## Conversation safety monitor (`ConversationSafetyMonitor`)

`max_guardrail_triggers` is the constant 3 set in `__init__`; triggers
are recorded with their timestamps and never removed. -/

/-- State of `ConversationSafetyMonitor` (the emotional-escalation
counter is carried but only the guardrail-trigger log matters here). -/
structure SafetyMonitor where
  guardrail_triggers : List (String × Nat)
  emotional_escalation_count : Nat
  max_guardrail_triggers : Nat
deriving DecidableEq, Repr

/-- Fresh monitor as built by `ConversationSafetyMonitor.__init__`. -/
def SafetyMonitor.init : SafetyMonitor :=
  { guardrail_triggers := [], emotional_escalation_count := 0, max_guardrail_triggers := 3 }

/-- Action recommendation returned by the monitor. -/
structure MonitorAction where
  action : Option String
  reason : Option String
  message : Option String
deriving DecidableEq, Repr

/-- Embedded `ConversationSafetyMonitor.record_guardrail_trigger`:
append the trigger, then recommend transfer when the cumulative count
has reached the ceiling. -/
def record_guardrail_trigger (m : SafetyMonitor) (gtype : String) (ts : Nat) :
    SafetyMonitor × MonitorAction :=
  let m2 := { m with guardrail_triggers := m.guardrail_triggers ++ [(gtype, ts)] }
  if m2.guardrail_triggers.length ≥ m2.max_guardrail_triggers then
    (m2, { action := some "transfer", reason := some "repeated_guardrail_triggers",
           message := some ("I" ++ apoS ++ "ve noticed you have some questions that I" ++ apoS ++
             "m not the best equipped to answer. Let me transfer you to our staff who can better help you.") })
  else
    (m2, { action := none, reason := none, message := none })

/-- Embedded `ConversationSafetyMonitor.get_safety_summary` (the fields
relevant to the transfer recommendation). -/
def get_safety_summary (m : SafetyMonitor) : Nat × Option String :=
  (m.guardrail_triggers.length,
   if m.guardrail_triggers.length ≥ 3 then some "transfer" else none)

/-! ## Date and time model for the scheduling service

`retell_service.py` works with Python `datetime` values. A datetime is
embedded as a calendar date plus a minute-of-day counter; ordering and
arithmetic go through the total-minute view, and `%A`, `%Y-%m-%d` and
`%I:%M %p` formatting are implemented directly. -/

/-- Embedded Python `datetime`: Gregorian date plus minutes since
midnight (kept unnormalised by `timedelta` addition; every comparison
goes through `dtMinutes`, which is monotone in it). -/
structure PyDateTime where
  year : Nat
  month : Nat
  day : Nat
  minute : Nat
deriving DecidableEq, Repr

/-- Gregorian leap-year test. -/
def isLeap (y : Nat) : Bool := (y % 4 = 0 && y % 100 ≠ 0) || y % 400 = 0

/-- Length of a month. -/
def daysInMonth (y m : Nat) : Nat :=
  if m = 2 then (if isLeap y then 29 else 28)
  else if m = 4 || m = 6 || m = 9 || m = 11 then 30 else 31

/-- Days in the months strictly before `m`. -/
def daysBeforeMonth (y : Nat) : Nat → Nat
  | 0 => 0
  | m + 1 => if m = 0 then 0 else daysBeforeMonth y m + daysInMonth y m

/-- Rata-die day number: day 0 is 0001-01-01, which is a Monday. -/
def rataDie (y m d : Nat) : Nat :=
  365 * (y - 1) + (y - 1) / 4 - (y - 1) / 100 + (y - 1) / 400 + daysBeforeMonth y m + (d - 1)

/-- Total-minute view of a datetime, used for every comparison and for
`timedelta` arithmetic. -/
def dtMinutes (t : PyDateTime) : Nat :=
  rataDie t.year t.month t.day * 1440 + t.minute

/-- Add minutes (`timedelta(minutes=n)`). -/
def dtAdd (t : PyDateTime) (n : Nat) : PyDateTime :=
  { t with minute := t.minute + n }

/-- Lowercased `%A` weekday name of a date. -/
def dayName (t : PyDateTime) : String :=
  (["monday", "tuesday", "wednesday", "thursday", "friday", "saturday", "sunday"].get?
    (rataDie t.year t.month t.day % 7)).getD "monday"

/-- Digits of a number, zero-padded to width `w`. -/
def padNat (w n : Nat) : String :=
  let s := toString n
  String.mk (List.replicate (w - s.length) '0') ++ s

/-- Formatting `%Y-%m-%d`. -/
def fmtDateYMD (t : PyDateTime) : String :=
  padNat 4 t.year ++ "-" ++ padNat 2 t.month ++ "-" ++ padNat 2 t.day

/-- Formatting `strftime("%I:%M %p").lstrip("0")` as used for slot
labels: 12-hour clock without a leading zero. -/
def fmtTime12 (minuteOfDay : Nat) : String :=
  let h24 := (minuteOfDay / 60) % 24
  let h12 := if h24 % 12 = 0 then 12 else h24 % 12
  let mm := minuteOfDay % 60
  toString h12 ++ ":" ++ padNat 2 mm ++ " " ++ (if h24 < 12 then "AM" else "PM")

/-- All-digit token test. -/
def allDigits (s : List Char) : Bool := s.all (fun c => '0' ≤ c && c ≤ '9')

/-- Numeric value of a digit token. -/
def digitsVal (s : List Char) : Nat :=
  s.foldl (fun a c => a * 10 + (c.toNat - 48)) 0

/-- Parse one strptime numeric field of maximal width `w`. -/
def numField (w : Nat) (s : List Char) : Option Nat :=
  if s ≠ [] && s.length ≤ w && allDigits s then some (digitsVal s) else none

/-- Parse a strptime `%Y` field, which requires exactly four digits. -/
def yearField (s : List Char) : Option Nat :=
  if s.length = 4 && allDigits s then some (digitsVal s) else none

/-- Calendar validation performed by the `datetime` constructor. -/
def validDate (y m d : Nat) : Bool :=
  1 ≤ y && y ≤ 9999 && 1 ≤ m && m ≤ 12 && 1 ≤ d && d ≤ daysInMonth y m

/-- Parse `y`, `m`, `d` tokens into a midnight datetime. -/
def mkDate (y m d : Nat) : Option PyDateTime :=
  if validDate y m d then some { year := y, month := m, day := d, minute := 0 } else none

/-- Embedded `RetellService._parse_date`: try `%Y-%m-%d`, `%m/%d/%Y`,
`%m-%d-%Y` in order; `none` models the `ValueError` raised when all
three fail. -/
def parse_date (s : String) : Option PyDateTime :=
  match s.data.splitOn '-' with
  | [ys, ms, ds] =>
    (match yearField ys, numField 2 ms, numField 2 ds with
     | some y, some m, some d => mkDate y m d
     | _, _, _ =>
       match numField 2 ys, numField 2 ms, yearField ds with
       | some m, some d, some y => mkDate y m d
       | _, _, _ => none)
  | _ =>
    match s.data.splitOn '/' with
    | [ms, ds, ys] =>
      (match numField 2 ms, numField 2 ds, yearField ys with
       | some m, some d, some y => mkDate y m d
       | _, _, _ => none)
    | _ => none

/-- Python whitespace test for `strip` and `\s+`. -/
def isPyWs (c : Char) : Bool := pyWs.contains c

/-- Python `str.strip()`. -/
def pyStrip (s : String) : String :=
  String.mk (((s.data.dropWhile isPyWs).reverse.dropWhile isPyWs).reverse)

/-- Words of a string split on runs of whitespace. -/
def pyWords (s : String) : List String :=
  ((s.data.splitOnP isPyWs).filter (fun w => w ≠ [])).map String.mk

/-- Case-insensitive substring test: SQL `field ILIKE '%pat%'`. -/
def containsCI (hay pat : String) : Bool :=
  let h := pyLower hay.data
  let p := pyLower pat.data
  (List.range (h.length + 1)).any (fun i => (h.drop i).take p.length = p)

/-- Python `a or b` on optional strings, where `None` and the empty
string are falsy. -/
def pyOrS : Option String → Option String → Option String
  | some s, b => if s = "" then b else some s
  | none, b => b

/-- Python `a or d` with a string default. -/
def pyOrD (o : Option String) (d : String) : String :=
  match o with
  | some s => if s = "" then d else s
  | none => d

/-- Rendering of an optional string inside an f-string (`None` prints
as the word None). -/
def pyShow (o : Option String) : String := o.getD "None"

/-- Raw substring test (`needle in hay` on already-lowercased text). -/
def listContains (hay pat : List Char) : Bool :=
  (List.range (hay.length + 1)).any (fun i => (hay.drop i).take pat.length = pat)

/-- First value for a key in an association-list dictionary. -/
def lookupDict {α : Type} (l : List (String × α)) (k : String) : Option α :=
  (l.find? (fun e => e.1 = k)).map (fun e => e.2)

/-- Parse a time string with the strptime formats tried by
`_combine_date_time`: `%I:%M %p`, then `%I %p`, then `%H:%M`; returns
the minute of the day. -/
def parseTimeFmts (ts : String) : Option Nat :=
  let ampm := fun (ap : List Char) (h m : Nat) =>
    if 1 ≤ h && h ≤ 12 && m ≤ 59 then
      (if pyLower ap = "am".data then some ((h % 12) * 60 + m)
       else if pyLower ap = "pm".data then some ((h % 12 + 12) * 60 + m)
       else none)
    else none
  match ts.data.splitOn ' ' with
  | [t, ap] =>
    (match t.splitOn ':' with
     | [hs, ms] =>
       (match numField 2 hs, numField 2 ms with
        | some h, some m => ampm ap h m
        | _, _ => none)
     | [hs] =>
       (match numField 2 hs with
        | some h => ampm ap h 0
        | _ => none)
     | _ => none)
  | [t] =>
    (match t.splitOn ':' with
     | [hs, ms] =>
       (match numField 2 hs, numField 2 ms with
        | some h, some m => if h ≤ 23 && m ≤ 59 then some (h * 60 + m) else none
        | _, _ => none)
     | _ => none)
  | _ => none

/-- Embedded `RetellService._combine_date_time`. A `none` result
models the `ValueError` raised by `_parse_date`; an unparseable time
string falls through to midnight, as in the source. -/
def combine_date_time (dateStr : String) (timeStr : Option String) : Option PyDateTime :=
  match parse_date dateStr with
  | none => none
  | some d =>
    match timeStr with
    | none => some d
    | some ts =>
      if ts = "" then some d
      else
        let tc := pyLower (pyStrip ts).data
        if tc = "morning".data || tc = "am".data then some { d with minute := 9 * 60 }
        else if tc = "afternoon".data || tc = "pm".data then some { d with minute := 13 * 60 }
        else
          match parseTimeFmts ts with
          | some mins => some { d with minute := mins }
          | none => some d

/-! ## Backing store model

Rows of the tables touched by `retell_service.py`. Lists stand for the
result-set orderings the queries rely on: `patients` is ordered by
`created_at DESC` and `providers` by `created_at ASC`, matching the
`ORDER BY ... LIMIT 1` retrievals. -/

/-- One `working_hours` day entry (the JSON dict may carry either key
spelling; `endv` stands for the `end` key). -/
structure WHEntry where
  start : Option String
  startTime : Option String
  endv : Option String
  endTime : Option String
deriving DecidableEq, Repr

/-- Patient row (fields read by the service). -/
structure Patient where
  id : String
  tenant_id : String
  first_name : String
  last_name : String
  dob : Option PyDateTime
deriving DecidableEq, Repr

/-- Provider row. -/
structure Provider where
  id : String
  tenant_id : String
  first_name : String
  last_name : String
  working_hours : Option (List (String × WHEntry))
  is_active : Bool
deriving DecidableEq, Repr

/-- Appointment row. -/
structure Appointment where
  id : String
  tenant_id : String
  patient_id : String
  provider_id : Option String
  provider : Option String
  start_time : PyDateTime
  end_time : PyDateTime
  duration : Nat
  appointment_type : Option String
  status : String
  notes : Option String
deriving DecidableEq, Repr

/-- Insurance policy row (only the two filtered columns matter). -/
structure InsurancePolicy where
  tenant_id : String
  patient_id : String
deriving DecidableEq, Repr

/-- The `after_state` JSON payload built by
`_create_appointment_approval`. -/
structure AfterState where
  id : String
  tenantId : Option String
  patientId : String
  providerId : Option String
  provider : String
  startTime : PyDateTime
  endTime : PyDateTime
  duration : Nat
  appointmentType : String
  status : String
  notes : Option String
  metadata : Option (Option String)
deriving DecidableEq, Repr

/-- Approval row inserted by `_create_appointment_approval`
(`before_state` is always the empty object). -/
structure Approval where
  id : String
  tenant_id : Option String
  entity_type : String
  entity_id : String
  after_state : AfterState
  ai_rationale : String
  status : String
  created_at : Nat
deriving DecidableEq, Repr

/-- The backing store visible to the service. -/
structure Db where
  patients : List Patient
  providers : List Provider
  appointments : List Appointment
  approvals : List Approval
  insurance_policies : List InsurancePolicy
deriving DecidableEq, Repr

/-- Ambient call context: clock readings and the identifiers freshly
drawn by `uuid4`, passed explicitly since the embedding is pure. -/
structure Ctx where
  now : Nat
  nowDt : PyDateTime
  nowMs : Nat
  newApptId : String
  newApprovalId : String
  toolCallId : String
deriving Repr

/-- Same calendar day. -/
def sameDate (a b : PyDateTime) : Bool :=
  a.year = b.year && a.month = b.month && a.day = b.day

/-! ## Service operations (`RetellService`) -/

/-- Embedded `RetellService._normalize_name`: collapse whitespace and
keep the first and last tokens. -/
def normalize_name (name : String) : String × String :=
  match pyWords name with
  | [] => ("", "")
  | [p] => (p, "")
  | p :: q :: rest => (p, (q :: rest).getLast (by simp))

/-- Embedded `RetellService._find_patient`. The SQL row filter is
transcribed from the query: tenant scope, optional exact date-of-birth
equality, and the fuzzy `ILIKE '%...%'` name disjunction — whose second
branch compares the percent-wrapped parameter `$4` with the empty
string and therefore never fires. A `none` name or a date-of-birth that
fails to parse hits the method's own `except` and yields `none`. -/
def find_patient (db : Db) (tenant : Option String) (patient_name : Option String)
    (patient_dob : Option String) : Option Patient :=
  match patient_name with
  | none => none
  | some pname =>
    let np := normalize_name pname
    let pat4 : String := "%" ++ np.2 ++ "%"
    let run := fun (dobVal : Option PyDateTime) =>
      db.patients.find? (fun r =>
        tenant = some r.tenant_id &&
        (match dobVal, r.dob with
         | none, _ => true
         | some d, some rd => sameDate rd d
         | some _, none => false) &&
        ((containsCI r.first_name np.1 && containsCI r.last_name np.2) ||
         (containsCI r.first_name np.1 && pat4 = "")))
    match patient_dob with
    | none => run none
    | some ds =>
      if ds = "" then run none
      else
        match parse_date ds with
        | none => none
        | some d => run (some d)

/-- Embedded `RetellService._get_default_provider`: first active
provider of the tenant in `created_at ASC` order; the display name is
the stripped concatenation of the name fields. -/
def get_default_provider (db : Db) (tenant : Option String) :
    Option (String × String × Option (List (String × WHEntry))) :=
  (db.providers.find? (fun p => tenant = some p.tenant_id && p.is_active)).map
    (fun p => (p.id, pyStrip (p.first_name ++ " " ++ p.last_name), p.working_hours))

/-- Embedded `RetellService._get_working_hours`: falsy or missing
entries give `none`; otherwise the two `_combine_date_time` calls
rebuild the day bounds from the formatted date (a formatted valid date
always reparses, so their failure branch is unreachable). -/
def get_working_hours (wh : Option (List (String × WHEntry))) (d : PyDateTime) :
    Option (PyDateTime × PyDateTime) :=
  match wh with
  | none => none
  | some entries =>
    if entries = [] then none
    else
      match lookupDict entries (dayName d) with
      | none => none
      | some e =>
        match pyOrS e.start e.startTime, pyOrS e.endv e.endTime with
        | some sv, some ev =>
          (match combine_date_time (fmtDateYMD d) (some sv),
                 combine_date_time (fmtDateYMD d) (some ev) with
           | some a, some b => some (a, b)
           | _, _ => none)
        | _, _ => none

/-- One offered slot. -/
structure Slot where
  time : String
  available : Bool
  duration : Nat
deriving DecidableEq, Repr

/-- Appointments considered as conflicts by `_calculate_slots`: same
tenant and provider, not cancelled or no-show, starting on the given
date. -/
def conflictAppointments (db : Db) (tenant : Option String) (providerId : String)
    (d : PyDateTime) : List Appointment :=
  db.appointments.filter (fun a =>
    tenant = some a.tenant_id && a.provider_id = some providerId &&
    a.status ≠ "cancelled" && a.status ≠ "no_show" && sameDate a.start_time d)

/-- Slot-enumeration loop of `_calculate_slots`: step the window start
by 15 minutes while a full slot fits, keeping the starts that overlap
no conflicting appointment under the half-open intersection test. The
structural fuel supplied by `calculate_slots` covers every iteration. -/
def calcSlotsGo (appts : List Appointment) (endT duration : Nat) :
    Nat → Nat → List Slot
  | 0, _ => []
  | fuel + 1, slotStart =>
    if slotStart + duration ≤ endT then
      let slotEnd := slotStart + duration
      let conflict := appts.any (fun a =>
        slotStart < dtMinutes a.end_time && slotEnd > dtMinutes a.start_time)
      (if conflict then [] else
        [{ time := fmtTime12 slotStart, available := true, duration := duration }]) ++
      calcSlotsGo appts endT duration fuel (slotStart + 15)
    else []

/-- Embedded `RetellService._calculate_slots`. -/
def calculate_slots (db : Db) (tenant : Option String) (providerId : String)
    (d : PyDateTime) (startT endT : PyDateTime) (duration : Nat) : List Slot :=
  calcSlotsGo (conflictAppointments db tenant providerId d) (dtMinutes endT) duration
    (dtMinutes endT + 1) (dtMinutes startT)

/-- Result dictionary of `check_availability`. `next_available` is
`none` on the error-shaped returns, which omit the key (their reader
falls back to a default). -/
structure Availability where
  date : Option String
  provider : Option String
  slots : List Slot
  next_available : Option (List String)
  message : Option String
deriving DecidableEq, Repr

/-- Embedded `RetellService.check_availability` (duration fixed at 30
in the source). The first branch is the method's `except` path, entered
exactly when `_parse_date` raises. -/
def check_availability (db : Db) (tenant : Option String) (date : Option String)
    (_appointment_type : Option String) : Availability :=
  let failRes : Availability :=
    { date := date, provider := none, slots := [], next_available := none,
      message := some ("I couldn" ++ apoS ++ "t access live availability right now.") }
  match date with
  | none => failRes
  | some ds =>
    match parse_date ds with
    | none => failRes
    | some d =>
      match get_default_provider db tenant with
      | none =>
        { date := date, provider := none, slots := [], next_available := none,
          message := some "No providers are configured for scheduling right now." }
      | some (pid, pname, wh) =>
        match get_working_hours wh d with
        | none =>
          { date := date, provider := none, slots := [], next_available := none,
            message := some "Provider availability is not configured for that date." }
        | some (st, et) =>
          { date := date, provider := some pname,
            slots := calculate_slots db tenant pid d st et 30,
            next_available := some [], message := none }

/-- Embedded `RetellService._match_slot`: first slot whose label
contains the preferred time, else the first slot. -/
def match_slot (slots : List Slot) (pref : String) : Option Slot :=
  match slots.find? (fun s => listContains (pyLower s.time.data) (pyLower pref.data)) with
  | some s => some s
  | none => slots.head?

/-- Slot selection inlined in `book_appointment` (same containment
test, defaulting to the first slot). -/
def pickSlot (slots : List Slot) (pref : Option String) : Option Slot :=
  match pref with
  | none => slots.head?
  | some p => match_slot slots p

/-- Embedded `RetellService._create_appointment_approval`: the single
write of the scheduling flows — one `INSERT INTO approvals` with
`status = 'pending'` and an empty `before_state`. -/
def create_appointment_approval (db : Db) (ctx : Ctx) (tenant : Option String)
    (appointment_id patient_id : String) (provider_id : Option String)
    (provider_name : String) (startT endT : PyDateTime) (duration : Nat)
    (appointment_type status : String) (notes : Option String) (action : String)
    (metadata : Option (Option String)) : Db :=
  { db with approvals := db.approvals ++
      [{ id := ctx.newApprovalId, tenant_id := tenant, entity_type := "appointment",
         entity_id := appointment_id,
         after_state :=
           { id := appointment_id, tenantId := tenant, patientId := patient_id,
             providerId := provider_id, provider := provider_name, startTime := startT,
             endTime := endT, duration := duration, appointmentType := appointment_type,
             status := status, notes := notes, metadata := metadata },
         ai_rationale := "AI receptionist requested " ++ action,
         status := "pending", created_at := ctx.now }] }

/-- Nested appointment summary returned by a successful booking. -/
structure BookedInfo where
  date : String
  time : String
  type : Option String
  patient_name : String
  confirmation_pending : Bool
deriving DecidableEq, Repr

/-- Result dictionary of the three scheduling operations. -/
structure SchedResult where
  success : Bool
  message : String
  appointment : Option BookedInfo
deriving DecidableEq, Repr

/-- Generic `except`-branch result of `book_appointment`. -/
def bookExceptResult : SchedResult :=
  { success := false,
    message := "I apologize, I" ++ apoS ++
      "m having trouble accessing our scheduling system. Would you like me to transfer you to our staff?",
    appointment := none }

/-- Join with a comma-space separator (`', '.join`). -/
def joinComma : List String → String
  | [] => ""
  | [s] => s
  | s :: t :: r => s ++ ", " ++ joinComma (t :: r)

/-- Embedded `RetellService.book_appointment`. A `none` patient name
makes `_normalize_name` raise inside `_find_patient`; that error is
swallowed there, but the name is also interpolated in messages, shown
as Python prints `None`. Slot selection, approval insertion and the
result dictionaries follow the source line by line; the `except`
branches correspond exactly to the `ValueError` paths of date parsing. -/
def book_appointment (db : Db) (ctx : Ctx) (tenant : Option String)
    (patient_name patient_dob appointment_type preferred_date preferred_time notes :
      Option String) : SchedResult × Db :=
  match patient_name with
  | none => (bookExceptResult, db)
  | some pname =>
    match find_patient db tenant (some pname) patient_dob with
    | none =>
      ({ success := false,
         message := "I couldn" ++ apoS ++ "t find a patient named " ++ pname ++
           " in our system. Would you like me to help you register as a new patient, or should I transfer you to our staff?",
         appointment := none }, db)
    | some patient =>
      let avail := check_availability db tenant preferred_date appointment_type
      if avail.slots = [] then
        ({ success := false,
           message := "Unfortunately, we don" ++ apoS ++ "t have any openings on " ++
             pyShow preferred_date ++ ". The next available dates are: " ++
             joinComma (avail.next_available.getD ["Please call back"]) ++
             ". Would you like to book one of those instead?",
           appointment := none }, db)
      else
        match pickSlot avail.slots preferred_time, preferred_date with
        | some selected, some pdate =>
          (match combine_date_time pdate (some selected.time) with
           | none => (bookExceptResult, db)
           | some startT =>
             let duration := selected.duration
             let endT := dtAdd startT duration
             match get_default_provider db tenant with
             | none =>
               ({ success := false,
                  message := "I couldn" ++ apoS ++ "t find a provider available for scheduling.",
                  appointment := none }, db)
             | some (pid, provName, _) =>
               let db2 := create_appointment_approval db ctx tenant ctx.newApptId patient.id
                 (some pid) provName startT endT duration (pyOrD appointment_type "treatment")
                 "scheduled" notes "create" none
               ({ success := true,
                  message := "I" ++ apoS ++ "ve submitted a scheduling request for " ++ pname ++
                    " on " ++ pdate ++ " at " ++ selected.time ++ ". Our team will confirm shortly.",
                  appointment := some
                    { date := pdate, time := selected.time, type := appointment_type,
                      patient_name := pname, confirmation_pending := true } }, db2))
        | _, _ => (bookExceptResult, db)

/-- Embedded `RetellService._find_appointment_by_date`. The outer
`none` stands for a propagating `ValueError` from `_parse_date`;
`some none` is an empty result set. The `ORDER BY start_time DESC
LIMIT 1` retrieval picks the latest-starting matching row. -/
def find_appointment_by_date (db : Db) (now : PyDateTime) (tenant : Option String)
    (patient_id : String) (date : Option String) : Option (Option Appointment) :=
  let dobjOpt :=
    match date with
    | none => some now
    | some ds => if ds = "" then some now else parse_date ds
  match dobjOpt with
  | none => none
  | some dobj =>
    let dayStart := dtMinutes { dobj with minute := 0 }
    let dayEnd := dayStart + 1440
    some ((db.appointments.filter (fun a =>
        tenant = some a.tenant_id && a.patient_id = patient_id &&
        dayStart ≤ dtMinutes a.start_time && dtMinutes a.start_time < dayEnd &&
        a.status ≠ "cancelled" && a.status ≠ "no_show")).foldl
      (fun acc a =>
        match acc with
        | none => some a
        | some b => if dtMinutes b.start_time < dtMinutes a.start_time then some a else some b)
      none)

/-- Embedded `RetellService.reschedule_appointment`. -/
def reschedule_appointment (db : Db) (ctx : Ctx) (tenant : Option String)
    (patient_name patient_dob current_date new_date new_time : Option String) :
    SchedResult × Db :=
  let exceptRes : SchedResult :=
    { success := false,
      message := "I" ++ apoS ++
        "m having trouble with our scheduling system. Let me transfer you to our staff.",
      appointment := none }
  match find_patient db tenant patient_name patient_dob with
  | none =>
    ({ success := false,
       message := "I couldn" ++ apoS ++
         "t verify your patient information. Could you please confirm your date of birth?",
       appointment := none }, db)
  | some patient =>
    match find_appointment_by_date db ctx.nowDt tenant patient.id current_date with
    | none => (exceptRes, db)
    | some none =>
      ({ success := false,
         message := "I couldn" ++ apoS ++ "t find the appointment you" ++ apoS ++
           "re trying to reschedule.", appointment := none }, db)
    | some (some appt) =>
      let avail := check_availability db tenant new_date none
      if avail.slots = [] then
        ({ success := false,
           message := "Unfortunately, " ++ pyShow new_date ++
             " is fully booked. Would you like to try a different date?",
           appointment := none }, db)
      else
        match (match new_time with
               | none => avail.slots.head?
               | some nt => match_slot avail.slots nt), new_date with
        | some selected, some nds =>
          (match combine_date_time nds (some selected.time) with
           | none => (exceptRes, db)
           | some startT =>
             let endT := dtAdd startT appt.duration
             let db2 := create_appointment_approval db ctx tenant appt.id patient.id
               appt.provider_id (pyOrD appt.provider "") startT endT appt.duration
               (pyOrD appt.appointment_type "treatment") (pyOrD appt.status "scheduled")
               appt.notes "reschedule" none
             ({ success := true,
                message := "I" ++ apoS ++ "ve submitted a reschedule request for " ++ nds ++
                  " at " ++ selected.time ++ ". Our team will confirm shortly.",
                appointment := none }, db2))
        | _, _ => (exceptRes, db)

/-- Embedded `RetellService.cancel_appointment`. -/
def cancel_appointment (db : Db) (ctx : Ctx) (tenant : Option String)
    (patient_name patient_dob appointment_date reason : Option String) : SchedResult × Db :=
  let exceptRes : SchedResult :=
    { success := false,
      message := "I" ++ apoS ++
        "m having trouble processing that. Let me transfer you to our staff.",
      appointment := none }
  match find_patient db tenant patient_name patient_dob with
  | none =>
    ({ success := false,
       message := "I couldn" ++ apoS ++
         "t verify your information. Could you please confirm your date of birth?",
       appointment := none }, db)
  | some patient =>
    match find_appointment_by_date db ctx.nowDt tenant patient.id appointment_date with
    | none => (exceptRes, db)
    | some none =>
      ({ success := false,
         message := "I couldn" ++ apoS ++ "t find the appointment you" ++ apoS ++
           "re trying to cancel.", appointment := none }, db)
    | some (some appt) =>
      let db2 := create_appointment_approval db ctx tenant appt.id patient.id
        appt.provider_id (pyOrD appt.provider "") appt.start_time appt.end_time appt.duration
        (pyOrD appt.appointment_type "treatment") "cancelled" appt.notes "cancel"
        (some reason)
      ({ success := true,
         message := "I" ++ apoS ++
           "ve submitted a cancellation request. Our team will confirm shortly.",
         appointment := none }, db2)

/-- Result dictionary of `lookup_patient`. -/
structure LookupResult where
  found : Bool
  patient_id : Option String
  message : String
deriving DecidableEq, Repr

/-- Embedded `RetellService.lookup_patient`. -/
def lookup_patient (db : Db) (tenant : Option String)
    (patient_name patient_dob : Option String) : LookupResult :=
  match find_patient db tenant patient_name patient_dob with
  | some patient =>
    { found := true, patient_id := some patient.id,
      message := "I found your record, " ++ pyShow patient_name ++
        ". How can I help you today?" }
  | none =>
    { found := false, patient_id := none,
      message := "I couldn" ++ apoS ++ "t find a record for " ++ pyShow patient_name ++
        " with that date of birth. Would you like to register as a new patient, or should I transfer you to our staff to help locate your record?" }

/-- Result dictionary of `get_insurance_info`. -/
structure InsuranceResult where
  has_insurance : Option Bool
  message : String
deriving DecidableEq, Repr

/-- Embedded `RetellService.get_insurance_info` (the count query over
`insurance_policies`). -/
def get_insurance_info (db : Db) (tenant : Option String)
    (patient_name patient_dob _procedure_type : Option String) : InsuranceResult :=
  match find_patient db tenant patient_name patient_dob with
  | none =>
    { has_insurance := none,
      message := "I couldn" ++ apoS ++
        "t verify your insurance without confirming your patient record." }
  | some patient =>
    let count := (db.insurance_policies.filter (fun pol =>
      tenant = some pol.tenant_id && pol.patient_id = patient.id)).length
    if 0 < count then
      { has_insurance := some true,
        message := "I can see insurance on file. For coverage details and estimates, our billing team can provide exact information. Would you like me to transfer you?" }
    else
      { has_insurance := some false,
        message := "I don" ++ apoS ++
          "t see active insurance on file. Our billing team can help update this if needed." }

/-! ## Call session controller (`routers/retell.py`)

The WebSocket handler is embedded as a pure step function over the
per-call state; awaited collaborators (the LLM and the fresh
identifiers and clock readings) are passed in explicitly. -/

/-- One transcript utterance as delivered by the transport. -/
structure Utterance where
  role : String
  content : String
deriving DecidableEq, Repr

/-- The `call_state` dictionary initialised on connect. -/
structure CallState where
  call_id : String
  tenant_id : Option String
  patient_verified : Bool
  patient_id : Option String
  conversation_history : List Utterance
  function_calls : List String
  last_response_id : Nat
  transfer_requested : Bool
  transfer_reason : Option String
  ended_by_agent : Bool
  call_details : Option (List (String × String))
  transfer_number : Option String
deriving DecidableEq, Repr

/-- Fresh call state as built in `retell_websocket`. -/
def CallState.init (call_id : String) (tenant : Option String) : CallState :=
  { call_id := call_id, tenant_id := tenant, patient_verified := false, patient_id := none,
    conversation_history := [], function_calls := [], last_response_id := 0,
    transfer_requested := false, transfer_reason := none, ended_by_agent := false,
    call_details := none, transfer_number := none }

/-- Dictionary lookup on a tool-call argument payload
(`func_args.get(k)`). -/
def argGet (args : List (String × String)) (k : String) : Option String :=
  lookupDict args k

/-- Shapes of the dictionaries `execute_function` can return. -/
inductive FnResult where
  | sched (r : SchedResult)
  | availability (r : Availability)
  | lookup (r : LookupResult)
  | insurance (r : InsuranceResult)
  | simple (success : Bool) (message : String)
  | error (msg : String)
deriving DecidableEq, Repr

/-- Combined outcome of a dispatcher invocation: the returned result,
the possibly updated call state and store, and the names of the backend
service operations that were invoked (the spy log the spec asks
about). -/
structure ExecOut where
  result : FnResult
  state : CallState
  db : Db
  backendCalls : List String
deriving DecidableEq, Repr

/-- Embedded `execute_function`, the function dispatcher of
`routers/retell.py`. Branch order and argument wiring follow the
source; the `except` wrapper is inert because the embedded service
operations are total. -/
def execute_function (db : Db) (ctx : Ctx) (state : CallState) (func_name : String)
    (args : List (String × String)) : ExecOut :=
  let tenant := state.tenant_id
  if func_name = "book_appointment" then
    let rdb := book_appointment db ctx tenant (argGet args "patient_name")
      (argGet args "patient_dob") (argGet args "appointment_type")
      (argGet args "preferred_date") (argGet args "preferred_time") (argGet args "notes")
    { result := FnResult.sched rdb.1, state := state, db := rdb.2,
      backendCalls := ["book_appointment"] }
  else if func_name = "check_availability" then
    { result := FnResult.availability
        (check_availability db tenant (argGet args "date") (argGet args "appointment_type")),
      state := state, db := db, backendCalls := ["check_availability"] }
  else if func_name = "reschedule_appointment" then
    let rdb := reschedule_appointment db ctx tenant (argGet args "patient_name")
      (argGet args "patient_dob") (argGet args "current_appointment_date")
      (argGet args "new_preferred_date") (argGet args "new_preferred_time")
    { result := FnResult.sched rdb.1, state := state, db := rdb.2,
      backendCalls := ["reschedule_appointment"] }
  else if func_name = "cancel_appointment" then
    let rdb := cancel_appointment db ctx tenant (argGet args "patient_name")
      (argGet args "patient_dob") (argGet args "appointment_date")
      (argGet args "cancellation_reason")
    { result := FnResult.sched rdb.1, state := state, db := rdb.2,
      backendCalls := ["cancel_appointment"] }
  else if func_name = "lookup_patient" then
    let r := lookup_patient db tenant (argGet args "patient_name") (argGet args "patient_dob")
    let state2 :=
      if r.found then
        { state with patient_verified := true, patient_id := r.patient_id }
      else state
    { result := FnResult.lookup r, state := state2, db := db,
      backendCalls := ["lookup_patient"] }
  else if func_name = "get_insurance_info" then
    if !state.patient_verified then
      { result := FnResult.error "Patient identity not verified. Please verify the patient first.",
        state := state, db := db, backendCalls := [] }
    else
      { result := FnResult.insurance (get_insurance_info db tenant
          (argGet args "patient_name") (argGet args "patient_dob")
          (argGet args "procedure_type")),
        state := state, db := db, backendCalls := ["get_insurance_info"] }
  else if func_name = "transfer_to_human" then
    { result := FnResult.simple true "Transfer initiated",
      state :=
        { state with transfer_requested := true, transfer_reason := argGet args "reason" },
      db := db, backendCalls := [] }
  else if func_name = "end_call" then
    { result := FnResult.simple true "Call ended",
      state := { state with ended_by_agent := true }, db := db, backendCalls := [] }
  else
    { result := FnResult.error ("Unknown function: " ++ func_name),
      state := state, db := db, backendCalls := [] }

/-- Chat message sent to the LLM (`function_call` carries the name and
dumped arguments of a requested tool call). -/
structure ChatMsg where
  role : String
  content : Option String
  name : Option String
  function_call : Option (String × String)
deriving DecidableEq, Repr

/-- A tool call requested by the model. -/
structure FuncCallReq where
  name : String
  arguments : List (String × String)
deriving DecidableEq, Repr

/-- Response of one `generate_voice_response` call. -/
structure LLMResult where
  content : Option String
  function_call : Option FuncCallReq
deriving DecidableEq, Repr

/-- The LLM collaborator as a pure oracle from the message list. -/
def LLM : Type := List ChatMsg → LLMResult

/-- Stand-in for the fixed system prompt of `routers/retell.py` (its
instruction text is never branched on by the controller). -/
def SYSTEM_PROMPT : String :=
  "You are a friendly and professional AI receptionist for a dental practice."

/-- The fixed opening utterance emitted on connect. -/
def BEGIN_MESSAGE : String :=
  "Hello! Thank you for calling. This is the CrownDesk dental practice assistant. How can I help you today?"

/-- Events written back to the transport. -/
inductive OutEvent where
  | response (response_id : Nat) (content : String) (content_complete : Bool)
      (end_call : Bool) (transfer_number : Option String)
  | toolCallInvocation (tool_call_id : String) (name : String) (arguments : String)
  | toolCallResult (tool_call_id : String) (content : String)
  | pingPong (ts : Nat)
deriving DecidableEq, Repr

/-- Serialisation stand-in for `json.dumps` on an argument payload. -/
def dumpArgs (args : List (String × String)) : String := reprStr args

/-- Serialisation stand-in for `json.dumps` on a function result. -/
def dumpResult (r : FnResult) : String := reprStr r

/-- Python role mapping: transcript `agent` becomes `assistant`,
everything else `user`. -/
def mapRole (r : String) : String := if r = "agent" then "assistant" else "user"

/-- Message list assembled for the LLM: system prompt, non-empty
transcript utterances, and the synthetic silence prompt on reminder
turns. -/
def buildMessages (transcript : List Utterance) (is_reminder : Bool) : List ChatMsg :=
  ⟨"system", some SYSTEM_PROMPT, none, none⟩ ::
  (transcript.filterMap (fun u =>
    if u.content ≠ "" then some (⟨mapRole u.role, some u.content, none, none⟩ : ChatMsg)
    else none)) ++
  (if is_reminder then
    [⟨"user", some "(The user has been silent for a while. Check if they need any help or are still there.)", none, none⟩]
  else [])

/-- Content of the most recent user utterance, as located by the
reversed scan in `generate_llm_response`. -/
def lastUserMessage (transcript : List Utterance) : Option String :=
  (transcript.reverse.find? (fun u => u.role = "user")).map (fun u => u.content)

/-- Fixed-width 50-character chunking (`content[i:i+50]`). -/
def chunksGo : Nat → List Char → List (List Char)
  | _, [] => []
  | 0, _ => []
  | fuel + 1, c :: rest => ((c :: rest).take 50) :: chunksGo fuel ((c :: rest).drop 50)

/-- Response emission of `generate_llm_response`: contents longer than
100 characters stream as 50-character chunks with `content_complete`
only on the last; otherwise a single complete response event. -/
def emitContent (content : String) (response_id : Nat) : List OutEvent :=
  let cd := content.data
  if 100 < cd.length then
    let chunks := chunksGo cd.length cd
    chunks.enum.map (fun ic =>
      OutEvent.response response_id (String.mk ic.2) (ic.1 = chunks.length - 1) false none)
  else
    [OutEvent.response response_id content true false none]

/-- Output of one controller turn: emitted events, updated state and
store, and instrumentation counting LLM calls and backend service
calls. -/
structure TurnOutput where
  events : List OutEvent
  state : CallState
  db : Db
  llmCalls : Nat
  backendCalls : List String
deriving Repr

/-- Embedded `generate_llm_response`: guardrail short-circuit on the
most recent user utterance, LLM call, optional single tool-call round
trip with the `end_call` and `transfer_to_human` terminal branches, and
chunked emission. -/
def generate_llm_response (llm : LLM) (ctx : Ctx) (state : CallState) (db : Db)
    (transcript : List Utterance) (response_id : Nat) (is_reminder : Bool) : TurnOutput :=
  let messages := buildMessages transcript is_reminder
  let blockedResp : Option GuardrailCheck :=
    match lastUserMessage transcript with
    | some m => if m ≠ "" then some (check_message m.data) else none
    | none => none
  let proceed : Unit → TurnOutput := fun _ =>
    let r1 := llm messages
    match r1.function_call with
    | some fc =>
      let ev1 := OutEvent.toolCallInvocation ctx.toolCallId fc.name (dumpArgs fc.arguments)
      let ex := execute_function db ctx state fc.name fc.arguments
      let ev2 := OutEvent.toolCallResult ctx.toolCallId (dumpResult ex.result)
      if fc.name = "end_call" then
        { events := [ev1, ev2, OutEvent.response response_id
            ((argGet fc.arguments "message").getD "Thank you for calling. Goodbye!")
            true true none],
          state := ex.state, db := ex.db, llmCalls := 1, backendCalls := ex.backendCalls }
      else if fc.name = "transfer_to_human" then
        let tn := ex.state.transfer_number.getD "+1234567890"
        { events := [ev1, ev2, OutEvent.response response_id
            ((argGet fc.arguments "message").getD
              ("I" ++ apoS ++ "ll transfer you to our staff now. Please hold."))
            true false (some tn)],
          state := ex.state, db := ex.db, llmCalls := 1, backendCalls := ex.backendCalls }
      else
        let messages2 := messages ++
          [⟨"assistant", none, none, some (fc.name, dumpArgs fc.arguments)⟩,
           ⟨"function", some (dumpResult ex.result), some fc.name, none⟩]
        let r2 := llm messages2
        { events := [ev1, ev2] ++ emitContent (r2.content.getD "") response_id,
          state := ex.state, db := ex.db, llmCalls := 2, backendCalls := ex.backendCalls }
    | none =>
      { events := emitContent (r1.content.getD "") response_id,
        state := state, db := db, llmCalls := 1, backendCalls := [] }
  match blockedResp with
  | some g =>
    if g.blocked then
      { events := [OutEvent.response response_id
          (g.message.getD ("I apologize, but I" ++ apoS ++
            "m not able to help with that. Would you like to speak with our staff?"))
          true false none],
        state := state, db := db, llmCalls := 0, backendCalls := [] }
    else proceed ()
  | none => proceed ()

/-- Inbound transport events handled by the main message loop. -/
inductive InEvent where
  | pingPong (ts : Nat)
  | callDetails (call : List (String × String))
  | updateOnly (transcript : List Utterance)
  | responseRequired (response_id : Nat) (transcript : List Utterance)
  | reminderRequired (response_id : Nat) (transcript : List Utterance)
deriving DecidableEq, Repr

/-- Embedded body of the `while True` message loop of
`retell_websocket`: one inbound event to one turn outcome. -/
def handleEvent (llm : LLM) (ctx : Ctx) (state : CallState) (db : Db) :
    InEvent → TurnOutput
  | InEvent.pingPong _ =>
    { events := [OutEvent.pingPong ctx.nowMs], state := state, db := db,
      llmCalls := 0, backendCalls := [] }
  | InEvent.callDetails c =>
    { events := [], state := { state with call_details := some c }, db := db,
      llmCalls := 0, backendCalls := [] }
  | InEvent.updateOnly t =>
    { events := [], state := { state with conversation_history := t }, db := db,
      llmCalls := 0, backendCalls := [] }
  | InEvent.responseRequired rid t =>
    generate_llm_response llm ctx
      { state with conversation_history := t, last_response_id := rid } db t rid false
  | InEvent.reminderRequired rid t =>
    generate_llm_response llm ctx
      { state with conversation_history := t, last_response_id := rid } db t rid true

/-! ## Theorems -/

theorem firstIdx_eq_none_iff (ps : List Rx) (m : List Char) :
    firstIdx ps m = none ↔ ps.any (fun p => reSearch p m) = false := by
  induction ps with
  | nil => simp [firstIdx]
  | cons p ps ih =>
    by_cases h : reSearch p m
    · simp [firstIdx, h]
    · have hf : reSearch p m = false := by
        cases hx : reSearch p m
        · rfl
        · exact absurd hx h
      simp [firstIdx, hf, ih]

theorem firstIdx_isSome_iff (ps : List Rx) (m : List Char) :
    (firstIdx ps m).isSome ↔ ps.any (fun p => reSearch p m) = true := by
  cases hA : ps.any (fun p => reSearch p m) with
  | false =>
    rw [(firstIdx_eq_none_iff ps m).2 hA]
    simp
  | true =>
    cases h : firstIdx ps m with
    | none =>
      rw [(firstIdx_eq_none_iff ps m).1 h] at hA
      exact absurd hA (by simp)
    | some i => simp

/-- C2. `check_message` evaluates emergency, then diagnosis, then
coverage-guarantee patterns with first match winning: an emergency
match yields `blocked`, kind `emergency`, severity `high` regardless of
other matches; a diagnosis match without an emergency match yields
severity `medium`; a coverage-guarantee match with neither yields
severity `low`; and no match at all yields `blocked = false`. -/
theorem C2_check_message_priority (m : List Char) :
    (emergencyPatterns.any (fun p => reSearch p (pyLower m)) = true →
      (check_message m).blocked = true ∧
      (check_message m).guardrail_type = some "emergency" ∧
      (check_message m).severity = some "high") ∧
    (emergencyPatterns.any (fun p => reSearch p (pyLower m)) = false →
      diagnosisPatterns.any (fun p => reSearch p (pyLower m)) = true →
      (check_message m).blocked = true ∧
      (check_message m).guardrail_type = some "diagnosis" ∧
      (check_message m).severity = some "medium") ∧
    (emergencyPatterns.any (fun p => reSearch p (pyLower m)) = false →
      diagnosisPatterns.any (fun p => reSearch p (pyLower m)) = false →
      coveragePatterns.any (fun p => reSearch p (pyLower m)) = true →
      (check_message m).blocked = true ∧
      (check_message m).guardrail_type = some "coverage_guarantee" ∧
      (check_message m).severity = some "low") ∧
    (emergencyPatterns.any (fun p => reSearch p (pyLower m)) = false →
      diagnosisPatterns.any (fun p => reSearch p (pyLower m)) = false →
      coveragePatterns.any (fun p => reSearch p (pyLower m)) = false →
      (check_message m).blocked = false) := by
  refine ⟨?_, ?_, ?_, ?_⟩
  · intro he
    have hs : (firstIdx emergencyPatterns (pyLower m)).isSome := by
      rw [firstIdx_isSome_iff]; exact he
    rcases Option.isSome_iff_exists.1 hs with ⟨i, hi⟩
    simp [check_message, hi]
  · intro he hd
    have h1 : firstIdx emergencyPatterns (pyLower m) = none :=
      (firstIdx_eq_none_iff _ _).2 he
    have hs : (firstIdx diagnosisPatterns (pyLower m)).isSome := by
      rw [firstIdx_isSome_iff]; exact hd
    rcases Option.isSome_iff_exists.1 hs with ⟨i, hi⟩
    simp [check_message, h1, hi]
  · intro he hd hc
    have h1 : firstIdx emergencyPatterns (pyLower m) = none :=
      (firstIdx_eq_none_iff _ _).2 he
    have h2 : firstIdx diagnosisPatterns (pyLower m) = none :=
      (firstIdx_eq_none_iff _ _).2 hd
    have hs : (firstIdx coveragePatterns (pyLower m)).isSome := by
      rw [firstIdx_isSome_iff]; exact hc
    rcases Option.isSome_iff_exists.1 hs with ⟨i, hi⟩
    simp [check_message, h1, h2, hi]
  · intro he hd hc
    have h1 : firstIdx emergencyPatterns (pyLower m) = none :=
      (firstIdx_eq_none_iff _ _).2 he
    have h2 : firstIdx diagnosisPatterns (pyLower m) = none :=
      (firstIdx_eq_none_iff _ _).2 hd
    have h3 : firstIdx coveragePatterns (pyLower m) = none :=
      (firstIdx_eq_none_iff _ _).2 hc
    simp [check_message, h1, h2, h3]

set_option maxRecDepth 4000000 in
/-- Witness for C2 at concrete messages: an utterance matching both an
emergency and a diagnosis pattern is classified as an emergency; a
diagnosis-only utterance as a diagnosis; a coverage-only utterance as
coverage; and a neutral greeting is not blocked. -/
theorem C2_check_message_priority_witness :
    ((emergencyPatterns.any (fun p => reSearch p (pyLower "severe pain, do i have an infection?".data)) = true) ∧
      (check_message "severe pain, do i have an infection?".data).guardrail_type = some "emergency") ∧
    ((check_message "do i have a cavity?".data).severity = some "medium") ∧
    ((check_message "will insurance cover this?".data).severity = some "low") ∧
    ((check_message "hello there".data).blocked = false) := by
  refine ⟨⟨by decide, ?_⟩, ?_, ?_, ?_⟩
  · exact ((C2_check_message_priority "severe pain, do i have an infection?".data).1
      (by decide)).2.1
  · exact (((C2_check_message_priority "do i have a cavity?".data).2.1
      (by decide) (by decide)).2.2)
  · exact (((C2_check_message_priority "will insurance cover this?".data).2.2.1
      (by decide) (by decide) (by decide)).2.2)
  · exact ((C2_check_message_priority "hello there".data).2.2.2
      (by decide) (by decide) (by decide))

set_option maxRecDepth 4000000 in
/-- C4 counterexample. On the exact scenario message the guardrail
engine fires the diagnosis family (the `what('s| is) wrong`
alternative), not the emergency family: the result carries kind
`diagnosis` and severity `medium`, refuting the claimed
`emergency`/`high` classification. -/
theorem C4_counterexample :
    (check_message scenarioTwoMessage.data).guardrail_type = some "diagnosis" ∧
    (check_message scenarioTwoMessage.data).severity = some "medium" ∧
    ¬ ((check_message scenarioTwoMessage.data).guardrail_type = some "emergency") ∧
    ¬ ((check_message scenarioTwoMessage.data).severity = some "high") := by
  refine ⟨by decide, by decide, by decide, by decide⟩

set_option maxRecDepth 4000000 in
/-- C4 as amended. A `response_required` turn whose latest user
utterance is the scenario message produces exactly one blocked
response — the canned diagnosis message, complete, with no transfer —
and performs no LLM call; the classification is diagnosis with
severity `medium`, not emergency with severity `high`. -/
theorem C4_diagnosis_blocked_turn (llm : LLM) (ctx : Ctx) (state : CallState) (db : Db)
    (rid : Nat) :
    (handleEvent llm ctx state db
        (InEvent.responseRequired rid [⟨"user", scenarioTwoMessage⟩])).events =
      [OutEvent.response rid diagnosisResponse true false none] ∧
    (handleEvent llm ctx state db
        (InEvent.responseRequired rid [⟨"user", scenarioTwoMessage⟩])).llmCalls = 0 := by
  have hc : check_message scenarioTwoMessage.data =
      { blocked := true, guardrail_type := some "diagnosis",
        message := some diagnosisResponse, severity := some "medium",
        matched_pattern := some 0 } := by decide
  have hne : (scenarioTwoMessage ≠ "") := by decide
  have hl : lastUserMessage [⟨"user", scenarioTwoMessage⟩] = some scenarioTwoMessage := by
    rfl
  constructor <;>
    simp [handleEvent, generate_llm_response, hl, hne, hc]

/-- A benign LLM oracle used by the concrete controller traces. -/
def benignLLM : LLM := fun _ =>
  { content := some "Happy to help with your scheduling needs today.", function_call := none }

/-- Fixed ambient context for the concrete traces. -/
def cxCtx : Ctx :=
  { now := 0, nowDt := ⟨2024, 1, 1, 0⟩, nowMs := 0, newApptId := "appt-1",
    newApprovalId := "appr-1", toolCallId := "tool-1" }

/-- Empty backing store. -/
def emptyDb : Db := ⟨[], [], [], [], []⟩

set_option maxRecDepth 4000000 in
/-- C1 counterexample. A session whose first three turns are all
blocked by guardrails (three recorded guardrail hits) handles a benign
fourth message as an ordinary LLM turn: the controller emits the
oracle's reply with no transfer number, makes one LLM call and sets no
transfer flag — no human-transfer outcome is forced. The session layer
never consults `ConversationSafetyMonitor`, so the ceiling has no
effect on call handling. -/
theorem C1_counterexample :
    (handleEvent benignLLM cxCtx (CallState.init "call-1" (some "t1")) emptyDb
        (InEvent.responseRequired 1 [⟨"user", "i have chest pain"⟩])).events =
      [OutEvent.response 1 emergencyResponse true false none] ∧
    (handleEvent benignLLM cxCtx
        (handleEvent benignLLM cxCtx (CallState.init "call-1" (some "t1")) emptyDb
          (InEvent.responseRequired 1 [⟨"user", "i have chest pain"⟩])).state emptyDb
        (InEvent.responseRequired 2 [⟨"user", "i have chest pain"⟩])).events =
      [OutEvent.response 2 emergencyResponse true false none] ∧
    (handleEvent benignLLM cxCtx
        (handleEvent benignLLM cxCtx
          (handleEvent benignLLM cxCtx (CallState.init "call-1" (some "t1")) emptyDb
            (InEvent.responseRequired 1 [⟨"user", "i have chest pain"⟩])).state emptyDb
          (InEvent.responseRequired 2 [⟨"user", "i have chest pain"⟩])).state emptyDb
        (InEvent.responseRequired 3 [⟨"user", "i have chest pain"⟩])).events =
      [OutEvent.response 3 emergencyResponse true false none] ∧
    (handleEvent benignLLM cxCtx
        (handleEvent benignLLM cxCtx
          (handleEvent benignLLM cxCtx
            (handleEvent benignLLM cxCtx (CallState.init "call-1" (some "t1")) emptyDb
              (InEvent.responseRequired 1 [⟨"user", "i have chest pain"⟩])).state emptyDb
            (InEvent.responseRequired 2 [⟨"user", "i have chest pain"⟩])).state emptyDb
          (InEvent.responseRequired 3 [⟨"user", "i have chest pain"⟩])).state emptyDb
        (InEvent.responseRequired 4 [⟨"user", "hello"⟩])).events =
      [OutEvent.response 4 "Happy to help with your scheduling needs today." true false none] ∧
    (handleEvent benignLLM cxCtx
        (handleEvent benignLLM cxCtx
          (handleEvent benignLLM cxCtx
            (handleEvent benignLLM cxCtx (CallState.init "call-1" (some "t1")) emptyDb
              (InEvent.responseRequired 1 [⟨"user", "i have chest pain"⟩])).state emptyDb
            (InEvent.responseRequired 2 [⟨"user", "i have chest pain"⟩])).state emptyDb
          (InEvent.responseRequired 3 [⟨"user", "i have chest pain"⟩])).state emptyDb
        (InEvent.responseRequired 4 [⟨"user", "hello"⟩])).llmCalls = 1 ∧
    (handleEvent benignLLM cxCtx
        (handleEvent benignLLM cxCtx
          (handleEvent benignLLM cxCtx
            (handleEvent benignLLM cxCtx (CallState.init "call-1" (some "t1")) emptyDb
              (InEvent.responseRequired 1 [⟨"user", "i have chest pain"⟩])).state emptyDb
            (InEvent.responseRequired 2 [⟨"user", "i have chest pain"⟩])).state emptyDb
          (InEvent.responseRequired 3 [⟨"user", "i have chest pain"⟩])).state emptyDb
        (InEvent.responseRequired 4 [⟨"user", "hello"⟩])).state.transfer_requested = false := by
  refine ⟨by decide, by decide, by decide, by decide, by decide, by decide⟩

/-- C1 as amended. The guardrail-trigger state of
`ConversationSafetyMonitor` is monotonic — recording only appends, and
no monitor operation removes triggers — and once the cumulative count
reaches the ceiling of 3 every further recorded trigger returns a
transfer recommendation and the safety summary recommends transfer;
however this monitor is advisory and the call-session layer does not
consult it, so later benign turns are not themselves forced to a
human-transfer outcome (see the counterexample). -/
theorem C1_monitor_ceiling (m : SafetyMonitor) (gtype : String) (ts : Nat)
    (h3 : m.max_guardrail_triggers = 3) :
    ((record_guardrail_trigger m gtype ts).1.guardrail_triggers =
      m.guardrail_triggers ++ [(gtype, ts)]) ∧
    (2 ≤ m.guardrail_triggers.length →
      (record_guardrail_trigger m gtype ts).2.action = some "transfer") ∧
    (m.guardrail_triggers.length < 2 →
      (record_guardrail_trigger m gtype ts).2.action = none) ∧
    (3 ≤ m.guardrail_triggers.length →
      (get_safety_summary m).2 = some "transfer") := by
  simp only [record_guardrail_trigger, get_safety_summary, h3, List.length_append,
    List.length_cons, List.length_nil, ge_iff_le]
  refine ⟨?_, ?_, ?_, ?_⟩
  · split <;> rfl
  · intro h
    rw [if_pos (by omega)]
  · intro h
    rw [if_neg (by omega)]
  · intro h
    rw [if_pos (by omega)]

/-- Concrete monitor holding two recorded triggers. -/
def witMonitor : SafetyMonitor :=
  { guardrail_triggers := [("emergency", 0), ("diagnosis", 1)],
    emotional_escalation_count := 0, max_guardrail_triggers := 3 }

/-- Witness for C1 as amended: recording a third trigger on a monitor
with two recorded triggers returns the transfer recommendation. -/
theorem C1_monitor_ceiling_witness :
    (record_guardrail_trigger witMonitor "coverage_guarantee" 2).2.action = some "transfer" :=
  (C1_monitor_ceiling witMonitor "coverage_guarantee" 2 rfl).2.1 (by decide)

set_option maxRecDepth 100000 in
/-- C5 counterexample. The transcript view is not append-only: after
two entries have been recorded, a later handled `update_only` transport
event carrying a different transcript replaces the stored history,
removing the previously recorded entries. -/
theorem C5_counterexample :
    ((handleEvent benignLLM cxCtx (CallState.init "call-2" none) emptyDb
        (InEvent.updateOnly [⟨"user", "hi"⟩, ⟨"agent", "hello"⟩])).state.conversation_history =
      [⟨"user", "hi"⟩, ⟨"agent", "hello"⟩]) ∧
    ((handleEvent benignLLM cxCtx
        (handleEvent benignLLM cxCtx (CallState.init "call-2" none) emptyDb
          (InEvent.updateOnly [⟨"user", "hi"⟩, ⟨"agent", "hello"⟩])).state emptyDb
        (InEvent.updateOnly [⟨"user", "bye"⟩])).state.conversation_history =
      [⟨"user", "bye"⟩]) ∧
    ¬ ((⟨"user", "hi"⟩ : Utterance) ∈
      (handleEvent benignLLM cxCtx
        (handleEvent benignLLM cxCtx (CallState.init "call-2" none) emptyDb
          (InEvent.updateOnly [⟨"user", "hi"⟩, ⟨"agent", "hello"⟩])).state emptyDb
        (InEvent.updateOnly [⟨"user", "bye"⟩])).state.conversation_history) := by
  refine ⟨by decide, by decide, by decide⟩

theorem execute_function_history (db : Db) (ctx : Ctx) (st : CallState) (f : String)
    (a : List (String × String)) :
    (execute_function db ctx st f a).state.conversation_history = st.conversation_history := by
  unfold execute_function
  repeat' split
  all_goals first
  | rfl
  | (dsimp only; split <;> rfl)

theorem generate_llm_response_history (llm : LLM) (ctx : Ctx) (st : CallState) (db : Db)
    (t : List Utterance) (rid : Nat) (rem : Bool) :
    (generate_llm_response llm ctx st db t rid rem).state.conversation_history =
      st.conversation_history := by
  unfold generate_llm_response
  dsimp only
  repeat' split
  all_goals simp [execute_function_history]

/-- C5 as amended. Within one call the stored transcript follows a
replacement (last-write-wins) discipline, not an append-only one: every
`update_only`, `response_required` or `reminder_required` event
overwrites `conversation_history` with the transcript it carries
(entries persist only insofar as the transport resends them), and the
remaining event kinds leave the stored history unchanged. -/
theorem C5_history_replacement (llm : LLM) (ctx : Ctx) (state : CallState) (db : Db)
    (t : List Utterance) (rid : Nat) (ts : Nat) (c : List (String × String)) :
    ((handleEvent llm ctx state db (InEvent.updateOnly t)).state.conversation_history = t) ∧
    ((handleEvent llm ctx state db
        (InEvent.responseRequired rid t)).state.conversation_history = t) ∧
    ((handleEvent llm ctx state db
        (InEvent.reminderRequired rid t)).state.conversation_history = t) ∧
    ((handleEvent llm ctx state db (InEvent.pingPong ts)).state.conversation_history =
      state.conversation_history) ∧
    ((handleEvent llm ctx state db (InEvent.callDetails c)).state.conversation_history =
      state.conversation_history) := by
  refine ⟨rfl, ?_, ?_, rfl, rfl⟩
  · simp [handleEvent, generate_llm_response_history]
  · simp [handleEvent, generate_llm_response_history]

/-- C3. Invoking the dispatcher for `get_insurance_info` with an
unverified session returns the explicit verification error, performs no
backend call (empty spy log) and leaves both the session state and the
store untouched. -/
theorem C3_insurance_requires_verification (db : Db) (ctx : Ctx) (state : CallState)
    (args : List (String × String)) (h : state.patient_verified = false) :
    execute_function db ctx state "get_insurance_info" args =
      { result := FnResult.error
          "Patient identity not verified. Please verify the patient first.",
        state := state, db := db, backendCalls := [] } := by
  unfold execute_function
  rw [if_neg (by decide), if_neg (by decide), if_neg (by decide), if_neg (by decide),
    if_neg (by decide), if_pos rfl, h]
  rfl

/-- Witness for C3: a freshly initialised (unverified) session is
refused concretely. -/
theorem C3_insurance_requires_verification_witness :
    (CallState.init "c3" (some "t")).patient_verified = false ∧
    execute_function emptyDb cxCtx (CallState.init "c3" (some "t")) "get_insurance_info"
        [("patient_name", "Jo")] =
      { result := FnResult.error
          "Patient identity not verified. Please verify the patient first.",
        state := CallState.init "c3" (some "t"), db := emptyDb, backendCalls := [] } :=
  ⟨rfl, C3_insurance_requires_verification emptyDb cxCtx (CallState.init "c3" (some "t"))
    [("patient_name", "Jo")] rfl⟩

theorem chunksGo_flatten (fuel : Nat) : ∀ s : List Char, s.length ≤ fuel →
    (chunksGo fuel s).flatten = s := by
  induction fuel with
  | zero =>
    intro s hs
    have : s = [] := List.eq_nil_of_length_eq_zero (Nat.le_zero.1 hs)
    subst this
    rfl
  | succ f ih =>
    intro s hs
    match s with
    | [] => rfl
    | c :: rest =>
      simp only [chunksGo, List.flatten_cons]
      rw [ih _ (by simp only [List.length_drop]; simp only [List.length_cons] at hs ⊢; omega)]
      exact List.take_append_drop 50 (c :: rest)

theorem chunksGo_ne_nil (fuel : Nat) (s : List Char) (hs : s ≠ []) (hf : 0 < fuel) :
    chunksGo fuel s ≠ [] := by
  match fuel, s with
  | f + 1, c :: rest => simp [chunksGo]

theorem chunksGo_mem_length (fuel : Nat) : ∀ s : List Char, ∀ c ∈ chunksGo fuel s,
    0 < c.length ∧ c.length ≤ 50 := by
  induction fuel with
  | zero =>
    intro s c hc
    cases s <;> simp [chunksGo] at hc
  | succ f ih =>
    intro s c hc
    match s with
    | [] => simp [chunksGo] at hc
    | a :: rest =>
      simp only [chunksGo, List.mem_cons] at hc
      rcases hc with hc | hc
      · subst hc
        constructor
        · simp
        · simp
      · exact ih _ _ hc

theorem chunksGo_dropLast_length (fuel : Nat) : ∀ s : List Char, s.length ≤ fuel →
    ∀ c ∈ (chunksGo fuel s).dropLast, c.length = 50 := by
  induction fuel with
  | zero =>
    intro s hs c hc
    have : s = [] := List.eq_nil_of_length_eq_zero (Nat.le_zero.1 hs)
    subst this
    simp [chunksGo] at hc
  | succ f ih =>
    intro s hs c hc
    match s with
    | [] => simp [chunksGo] at hc
    | a :: rest =>
      by_cases hd : (a :: rest).drop 50 = []
      · simp only [chunksGo, hd] at hc
        simp at hc
      · have hlong : 50 < (a :: rest).length := by
          by_contra hle
          exact hd (List.drop_eq_nil_of_le (by omega))
        have hne : chunksGo f ((a :: rest).drop 50) ≠ [] := by
          apply chunksGo_ne_nil
          · exact hd
          · simp only [List.length_cons] at hs hlong
            omega
        simp only [chunksGo] at hc
        rw [List.dropLast_cons_of_ne_nil hne] at hc
        rcases List.mem_cons.1 hc with hc | hc
        · subst hc
          simp only [List.length_take]
          omega
        · exact ih _ (by simp only [List.length_drop]; simp at hs ⊢; omega) _ hc

/-- C8. Response emission: content longer than 100 characters is
emitted as consecutive 50-character chunks (the last possibly shorter
but never empty), all events carrying the given `response_id` with
`end_call = false` and no transfer number, `content_complete` true
exactly on the final chunk, and the chunk concatenation restoring the
original content; content of at most 100 characters is emitted as a
single complete response event. -/
theorem C8_chunking (content : String) (rid : Nat) :
    (100 < content.data.length →
      ∃ chunks : List (List Char),
        emitContent content rid = chunks.enum.map (fun ic =>
          OutEvent.response rid (String.mk ic.2) (ic.1 = chunks.length - 1) false none) ∧
        chunks.flatten = content.data ∧ chunks ≠ [] ∧
        (∀ c ∈ chunks.dropLast, c.length = 50) ∧
        (∀ c ∈ chunks, 0 < c.length ∧ c.length ≤ 50)) ∧
    (content.data.length ≤ 100 →
      emitContent content rid = [OutEvent.response rid content true false none]) := by
  constructor
  · intro h
    refine ⟨chunksGo content.data.length content.data, ?_, ?_, ?_, ?_, ?_⟩
    · unfold emitContent
      rw [if_pos h]
    · exact chunksGo_flatten _ _ (Nat.le_refl _)
    · exact chunksGo_ne_nil _ _ (by intro hn; rw [hn] at h; simp at h) (by omega)
    · exact chunksGo_dropLast_length _ _ (Nat.le_refl _)
    · exact chunksGo_mem_length _ _
  · intro h
    unfold emitContent
    rw [if_neg (by omega)]

/-- A 150-character content string. -/
def longContent : String := String.mk (List.replicate 150 'a')

set_option maxRecDepth 100000 in
/-- Witness for C8: the chunking clause applied to a concrete
150-character content and the single-event clause to a short one. -/
theorem C8_chunking_witness :
    (100 < longContent.data.length ∧
      ∃ chunks : List (List Char),
        emitContent longContent 7 = chunks.enum.map (fun ic =>
          OutEvent.response 7 (String.mk ic.2) (ic.1 = chunks.length - 1) false none) ∧
        chunks.flatten = longContent.data ∧ chunks ≠ [] ∧
        (∀ c ∈ chunks.dropLast, c.length = 50) ∧
        (∀ c ∈ chunks, 0 < c.length ∧ c.length ≤ 50)) ∧
    emitContent "short" 7 = [OutEvent.response 7 "short" true false none] :=
  ⟨⟨by decide, (C8_chunking longContent 7).1 (by decide)⟩,
   (C8_chunking "short" 7).2 (by decide)⟩

theorem slotConflict_any_false_iff (appts : List Appointment) (s e : Nat) :
    (appts.any (fun a => s < dtMinutes a.end_time && e > dtMinutes a.start_time)) = false ↔
    ∀ a ∈ appts, ¬(s < dtMinutes a.end_time ∧ e > dtMinutes a.start_time) := by
  rw [List.any_eq_false]
  constructor
  · intro h a ha hcon
    have := h a ha
    simp only [Bool.and_eq_true, decide_eq_true_eq, not_and] at this
    exact absurd hcon.2 (by simpa using this hcon.1)
  · intro h a ha
    have := h a ha
    simp only [Bool.and_eq_true, decide_eq_true_eq]
    intro hcon
    exact this ⟨hcon.1, hcon.2⟩

theorem calcSlotsGo_mem (appts : List Appointment) (endT duration : Nat) :
    ∀ (fuel start : Nat), endT + 1 ≤ fuel + start → ∀ sl : Slot,
    (sl ∈ calcSlotsGo appts endT duration fuel start ↔
      ∃ k : Nat, start + 15 * k + duration ≤ endT ∧
        (∀ a ∈ appts, ¬(start + 15 * k < dtMinutes a.end_time ∧
          start + 15 * k + duration > dtMinutes a.start_time)) ∧
        sl = { time := fmtTime12 (start + 15 * k), available := true,
               duration := duration }) := by
  intro fuel
  induction fuel with
  | zero =>
    intro start hf sl
    constructor
    · intro h
      simp [calcSlotsGo] at h
    · rintro ⟨k, hk, -, -⟩
      omega
  | succ f ih =>
    intro start hf sl
    by_cases hcond : start + duration ≤ endT
    · simp only [calcSlotsGo, if_pos hcond]
      rw [List.mem_append, ih (start + 15) (by omega) sl]
      constructor
      · rintro (hin | ⟨k, hk1, hk2, hk3⟩)
        · refine ⟨0, by simpa using hcond, ?_, ?_⟩
          · intro a ha
            by_cases hc : (appts.any (fun a => start < dtMinutes a.end_time &&
                start + duration > dtMinutes a.start_time)) = true
            · rw [if_pos (by simpa using hc)] at hin
              simp at hin
            · have hfalse : (appts.any (fun a => start < dtMinutes a.end_time &&
                  start + duration > dtMinutes a.start_time)) = false := by
                cases hx : (appts.any (fun a => start < dtMinutes a.end_time &&
                  start + duration > dtMinutes a.start_time))
                · rfl
                · exact absurd hx hc
              have := (slotConflict_any_false_iff appts start (start + duration)).1 hfalse a ha
              simpa using this
          · by_cases hc : (appts.any (fun a => start < dtMinutes a.end_time &&
                start + duration > dtMinutes a.start_time)) = true
            · rw [if_pos (by simpa using hc)] at hin
              simp at hin
            · rw [if_neg (by simpa using hc)] at hin
              simp only [List.mem_singleton] at hin
              simpa using hin
        · exact ⟨k + 1, by
            rw [show start + 15 * (k + 1) = start + 15 + 15 * k by ring]
            exact hk1, by
            intro a ha
            rw [show start + 15 * (k + 1) = start + 15 + 15 * k by ring]
            exact hk2 a ha, by
            rw [show start + 15 * (k + 1) = start + 15 + 15 * k by ring]
            exact hk3⟩
      · rintro ⟨k, hk1, hk2, hk3⟩
        match k with
        | 0 =>
          left
          simp only [Nat.mul_zero, Nat.add_zero] at hk1 hk2 hk3
          rw [if_neg]
          · simpa using hk3
          · rw [(slotConflict_any_false_iff appts start (start + duration)).2 ?_]
            · simp
            · intro a ha
              exact hk2 a ha
        | k + 1 =>
          right
          refine ⟨k, ?_, ?_, ?_⟩
          · rw [show start + 15 + 15 * k = start + 15 * (k + 1) by ring]
            exact hk1
          · intro a ha
            rw [show start + 15 + 15 * k = start + 15 * (k + 1) by ring]
            exact hk2 a ha
          · rw [show start + 15 + 15 * k = start + 15 * (k + 1) by ring]
            exact hk3
    · simp only [calcSlotsGo, if_neg hcond]
      constructor
      · intro h
        simp at h
      · rintro ⟨k, hk, -, -⟩
        omega

/-- C7. A slot start belongs to the computed availability exactly when
it is reached from the window start in 15-minute steps, the full
30-minute slot fits inside the working-hours window, and the half-open
interval `[s, s+30)` intersects no non-cancelled, non-no-show
appointment of that provider on that date under the
`start < other.end ∧ end > other.start` test. -/
theorem C7_slots_characterization (db : Db) (tenant : Option String) (pid : String)
    (d : PyDateTime) (startT endT : PyDateTime) (sl : Slot) :
    sl ∈ calculate_slots db tenant pid d startT endT 30 ↔
      ∃ k : Nat, dtMinutes startT + 15 * k + 30 ≤ dtMinutes endT ∧
        (∀ a ∈ db.appointments,
          (tenant = some a.tenant_id ∧ a.provider_id = some pid ∧
           a.status ≠ "cancelled" ∧ a.status ≠ "no_show" ∧ sameDate a.start_time d = true) →
          ¬(dtMinutes startT + 15 * k < dtMinutes a.end_time ∧
            dtMinutes startT + 15 * k + 30 > dtMinutes a.start_time)) ∧
        sl = { time := fmtTime12 (dtMinutes startT + 15 * k), available := true,
               duration := 30 } := by
  unfold calculate_slots
  rw [calcSlotsGo_mem _ _ _ _ _ (by omega)]
  constructor
  · rintro ⟨k, h1, h2, h3⟩
    refine ⟨k, h1, ?_, h3⟩
    intro a ha hprops
    apply h2 a
    unfold conflictAppointments
    rw [List.mem_filter]
    refine ⟨ha, ?_⟩
    simp only [Bool.and_eq_true, decide_eq_true_eq]
    exact ⟨⟨⟨⟨hprops.1, hprops.2.1⟩, hprops.2.2.1⟩, hprops.2.2.2.1⟩, hprops.2.2.2.2⟩
  · rintro ⟨k, h1, h2, h3⟩
    refine ⟨k, h1, ?_, h3⟩
    intro a ha
    unfold conflictAppointments at ha
    rw [List.mem_filter] at ha
    have hp := ha.2
    simp only [Bool.and_eq_true, decide_eq_true_eq] at hp
    exact h2 a ha.1 ⟨hp.1.1.1.1, hp.1.1.1.2, hp.1.1.2, hp.1.2, hp.2⟩

/-- Concrete store for the C7 witness: one provider with one 9:30 to
10:00 appointment on 2024-03-04. -/
def c7Db : Db :=
  { patients := [], providers := [], approvals := [], insurance_policies := [],
    appointments := [
      { id := "a1", tenant_id := "t", patient_id := "p", provider_id := some "prov1",
        provider := some "Dr D", start_time := ⟨2024, 3, 4, 570⟩,
        end_time := ⟨2024, 3, 4, 600⟩, duration := 30, appointment_type := some "treatment",
        status := "scheduled", notes := none }] }

set_option maxRecDepth 1000000 in
/-- Witness for C7: inside a 9:00 to 10:00 window with a 9:30 booking,
the 9:00 slot is offered (via the characterisation at `k = 0`) and the
computed list contains exactly that slot. -/
theorem C7_slots_characterization_witness :
    ((⟨"9:00 AM", true, 30⟩ : Slot) ∈
      calculate_slots c7Db (some "t") "prov1" ⟨2024, 3, 4, 0⟩ ⟨2024, 3, 4, 540⟩
        ⟨2024, 3, 4, 600⟩ 30) ∧
    calculate_slots c7Db (some "t") "prov1" ⟨2024, 3, 4, 0⟩ ⟨2024, 3, 4, 540⟩
        ⟨2024, 3, 4, 600⟩ 30 = [⟨"9:00 AM", true, 30⟩] :=
  ⟨(C7_slots_characterization c7Db (some "t") "prov1" ⟨2024, 3, 4, 0⟩ ⟨2024, 3, 4, 540⟩
      ⟨2024, 3, 4, 600⟩ ⟨"9:00 AM", true, 30⟩).2
    ⟨0, by decide, by decide, by decide⟩, by decide⟩

theorem pctWrap_ne_empty (x : String) : ("%" ++ x ++ "%") ≠ "" := by
  intro h
  have hlen : ("%" ++ x ++ "%").length = 0 := by rw [h]; rfl
  rw [String.length_append, String.length_append] at hlen
  have h1 : "%".length = 1 := rfl
  omega

/-- C10. When the dispatcher runs `lookup_patient` with no
`patient_dob` argument, the patient search reduces to the fuzzy
case-insensitive name containment alone — the date-of-birth conjunct of
the row filter is skipped entirely — and any row found this way marks
the session verified and records its patient id, so a session can
become verified without any date of birth being supplied or checked. -/
theorem C10_lookup_without_dob (db : Db) (ctx : Ctx) (state : CallState)
    (args : List (String × String)) (hdob : argGet args "patient_dob" = none) :
    (find_patient db state.tenant_id (argGet args "patient_name")
        (argGet args "patient_dob") =
      match argGet args "patient_name" with
      | none => none
      | some pname =>
        db.patients.find? (fun r =>
          state.tenant_id = some r.tenant_id &&
          (containsCI r.first_name (normalize_name pname).1 &&
           containsCI r.last_name (normalize_name pname).2))) ∧
    (∀ p : Patient,
      find_patient db state.tenant_id (argGet args "patient_name")
          (argGet args "patient_dob") = some p →
      (execute_function db ctx state "lookup_patient" args).state.patient_verified = true ∧
      (execute_function db ctx state "lookup_patient" args).state.patient_id = some p.id) := by
  constructor
  · rw [hdob]
    unfold find_patient
    cases hn : argGet args "patient_name" with
    | none => rfl
    | some pname =>
      dsimp only
      congr 1
      funext r
      have h4 : ("%" ++ (normalize_name pname).2 ++ "%" : String) ≠ "" := pctWrap_ne_empty _
      simp [h4]
  · intro p hp
    have hl : lookup_patient db state.tenant_id (argGet args "patient_name")
        (argGet args "patient_dob") =
        { found := true, patient_id := some p.id,
          message := "I found your record, " ++ pyShow (argGet args "patient_name") ++
            ". How can I help you today?" } := by
      unfold lookup_patient
      rw [hp]
    unfold execute_function
    rw [if_neg (by decide), if_neg (by decide), if_neg (by decide), if_neg (by decide),
      if_pos rfl]
    dsimp only
    rw [hl]
    exact ⟨rfl, rfl⟩

/-- Store for the C10 witness: one patient record. -/
def c10Db : Db :=
  { patients := [⟨"pA", "t", "Maria", "Lopez", some ⟨1990, 1, 1, 0⟩⟩],
    providers := [], appointments := [], approvals := [], insurance_policies := [] }

set_option maxRecDepth 1000000 in
/-- Witness for C10: looking up `maria` with no date of birth argument
verifies the session against the stored record. -/
theorem C10_lookup_without_dob_witness :
    (execute_function c10Db cxCtx (CallState.init "c" (some "t")) "lookup_patient"
      [("patient_name", "maria")]).state.patient_verified = true :=
  ((C10_lookup_without_dob c10Db cxCtx (CallState.init "c" (some "t"))
      [("patient_name", "maria")] rfl).2
    ⟨"pA", "t", "Maria", "Lopez", some ⟨1990, 1, 1, 0⟩⟩ (by decide)).1

/-- Frame property: the only store change is the insertion of at most
one pending approval record; every other table is untouched. -/
def ApprovalOnlyWrite (db db2 : Db) : Prop :=
  db2.patients = db.patients ∧ db2.providers = db.providers ∧
  db2.appointments = db.appointments ∧ db2.insurance_policies = db.insurance_policies ∧
  (db2.approvals = db.approvals ∨
   ∃ rec : Approval, db2.approvals = db.approvals ++ [rec] ∧ rec.status = "pending" ∧
     rec.entity_type = "appointment")

theorem book_appointment_frame (db : Db) (ctx : Ctx) (tenant pn pd at_ pdate pt notes :
    Option String) :
    ApprovalOnlyWrite db (book_appointment db ctx tenant pn pd at_ pdate pt notes).2 := by
  unfold book_appointment
  repeat' (first | split | dsimp only)
  all_goals first
    | exact ⟨rfl, rfl, rfl, rfl, Or.inl rfl⟩
    | exact ⟨rfl, rfl, rfl, rfl, Or.inr ⟨_, rfl, rfl, rfl⟩⟩

theorem reschedule_appointment_frame (db : Db) (ctx : Ctx) (tenant pn pd cd nd nt :
    Option String) :
    ApprovalOnlyWrite db (reschedule_appointment db ctx tenant pn pd cd nd nt).2 := by
  unfold reschedule_appointment
  repeat' (first | split | dsimp only)
  all_goals first
    | exact ⟨rfl, rfl, rfl, rfl, Or.inl rfl⟩
    | exact ⟨rfl, rfl, rfl, rfl, Or.inr ⟨_, rfl, rfl, rfl⟩⟩

theorem cancel_appointment_frame (db : Db) (ctx : Ctx) (tenant pn pd ad reason :
    Option String) :
    ApprovalOnlyWrite db (cancel_appointment db ctx tenant pn pd ad reason).2 := by
  unfold cancel_appointment
  repeat' (first | split | dsimp only)
  all_goals first
    | exact ⟨rfl, rfl, rfl, rfl, Or.inl rfl⟩
    | exact ⟨rfl, rfl, rfl, rfl, Or.inr ⟨_, rfl, rfl, rfl⟩⟩

/-- C6. Dispatching `book_appointment`, `reschedule_appointment` or
`cancel_appointment` never mutates the appointments system of record
(nor any other table): the only write ever performed is the insertion
of a single approval row with status `pending` for human
confirmation. -/
theorem C6_appointments_never_mutated (db : Db) (ctx : Ctx) (state : CallState)
    (args : List (String × String)) (fname : String)
    (h : fname = "book_appointment" ∨ fname = "reschedule_appointment" ∨
      fname = "cancel_appointment") :
    ApprovalOnlyWrite db (execute_function db ctx state fname args).db := by
  rcases h with h | h | h <;> subst h
  · unfold execute_function
    rw [if_pos rfl]
    exact book_appointment_frame _ _ _ _ _ _ _ _ _
  · unfold execute_function
    rw [if_neg (by decide), if_neg (by decide), if_pos rfl]
    exact reschedule_appointment_frame _ _ _ _ _ _ _ _
  · unfold execute_function
    rw [if_neg (by decide), if_neg (by decide), if_neg (by decide), if_pos rfl]
    exact cancel_appointment_frame _ _ _ _ _ _ _

/-- Store for the C6 witness: a patient and a provider open 9:00 to
10:00 on Mondays, no appointments and no approvals yet. -/
def c6Db : Db :=
  { patients := [⟨"pA", "t", "Maria", "Lopez", some ⟨1990, 1, 1, 0⟩⟩],
    providers := [
      { id := "prov1", tenant_id := "t", first_name := "Dana", last_name := "Kim",
        working_hours := some [("monday",
          { start := some "09:00", startTime := none, endv := some "10:00",
            endTime := none })],
        is_active := true }],
    appointments := [], approvals := [], insurance_policies := [] }

/-- Dispatcher arguments for the witness booking. -/
def c6Args : List (String × String) :=
  [("patient_name", "Maria Lopez"), ("preferred_date", "2024-03-04"),
   ("appointment_type", "cleaning")]

set_option maxRecDepth 4000000 in
/-- Witness for C6: a concrete successful booking obeys the frame
property, leaves the appointments table empty and inserts exactly one
pending approval. -/
theorem C6_appointments_never_mutated_witness :
    ApprovalOnlyWrite c6Db
      (execute_function c6Db cxCtx (CallState.init "c" (some "t")) "book_appointment"
        c6Args).db ∧
    (execute_function c6Db cxCtx (CallState.init "c" (some "t")) "book_appointment"
        c6Args).db.appointments = [] ∧
    ((execute_function c6Db cxCtx (CallState.init "c" (some "t")) "book_appointment"
        c6Args).db.approvals.map (fun a => a.status)) = ["pending"] :=
  ⟨C6_appointments_never_mutated c6Db cxCtx (CallState.init "c" (some "t")) c6Args
      "book_appointment" (Or.inl rfl),
   by decide, by decide⟩

/-! ## Idempotence of `scrub_pii`

The development below establishes that a scrubbed string contains no
further match of any PII pattern, so a second pass of every
substitution is the identity. The key structural facts: each PII
pattern is `\b body \b` with a body that cannot match the empty string,
consumes no bracket characters, and must consume a key character
(a digit, or `@` for the email pattern) that never occurs inside a
replacement marker; and `re.sub` scans the original string, so a
leftover region of the output that still matched would already have
matched during the scan. -/

/-- Syntactic check: every character a pattern can consume satisfies
`good` (conservative on the dot, which the PII bodies do not use). -/
def allCharsIn : Rx → (Char → Bool) → Bool
  | Rx.eps, _ => true
  | Rx.chr c, g => g c
  | Rx.cls cs, g => cs.all g
  | Rx.dot, _ => false
  | Rx.seq p q, g => allCharsIn p g && allCharsIn q g
  | Rx.alt p q, g => allCharsIn p g && allCharsIn q g
  | Rx.star p, g => allCharsIn p g

/-- Syntactic check: every match of the pattern must contain a
character satisfying `key`. -/
def mustContain : Rx → (Char → Bool) → Bool
  | Rx.eps, _ => false
  | Rx.chr c, k => k c
  | Rx.cls cs, k => cs.all k
  | Rx.dot, _ => false
  | Rx.seq p q, k => mustContain p k || mustContain q k
  | Rx.alt p q, k => mustContain p k && mustContain q k
  | Rx.star _, _ => false

/-- Syntactic check: the pattern cannot match the empty string. -/
def nonEmptyRx : Rx → Bool
  | Rx.eps => false
  | Rx.chr _ => true
  | Rx.cls _ => true
  | Rx.dot => true
  | Rx.seq p q => nonEmptyRx p || nonEmptyRx q
  | Rx.alt p q => nonEmptyRx p && nonEmptyRx q
  | Rx.star _ => false

theorem cands_le_length : ∀ (f : Nat) (r : Rx) (s : List Char) (l : Nat),
    l ∈ cands f r s → l ≤ s.length := by
  intro f
  induction f with
  | zero => intro r s l h; simp [cands] at h
  | succ f ih =>
    intro r s l h
    match r, s with
    | Rx.eps, s => simp [cands] at h; omega
    | Rx.chr c, [] => simp [cands] at h
    | Rx.chr c, a :: rest =>
      simp only [cands] at h
      split at h <;> simp_all
    | Rx.cls cs, [] => simp [cands] at h
    | Rx.cls cs, a :: rest =>
      simp only [cands] at h
      split at h <;> simp_all
    | Rx.dot, [] => simp [cands] at h
    | Rx.dot, a :: rest =>
      simp only [cands] at h
      split at h <;> simp_all
    | Rx.seq p q, s =>
      simp only [cands, List.mem_flatMap, List.mem_map] at h
      rcases h with ⟨lp, hp, m, hm, rfl⟩
      have h1 := ih p s lp hp
      have h2 := ih q (s.drop lp) m hm
      simp only [List.length_drop] at h2
      omega
    | Rx.alt p q, s =>
      simp only [cands, List.mem_append] at h
      rcases h with h | h
      · exact ih p s l h
      · exact ih q s l h
    | Rx.star p, s =>
      simp only [cands, List.mem_append, List.mem_flatMap, List.mem_map,
        List.mem_filter] at h
      rcases h with ⟨lp, ⟨hp, _⟩, m, hm, rfl⟩ | h
      · have h1 := ih p s lp hp
        have h2 := ih (Rx.star p) (s.drop lp) m hm
        simp only [List.length_drop] at h2
        omega
      · simp at h; omega

theorem cands_mono : ∀ (f g : Nat), f ≤ g → ∀ (r : Rx) (s : List Char) (l : Nat),
    l ∈ cands f r s → l ∈ cands g r s := by
  intro f
  induction f with
  | zero => intro g hg r s l h; simp [cands] at h
  | succ f ih =>
    intro g hg r s l h
    match g, hg with
    | g + 1, hg =>
      have hfg : f ≤ g := by omega
      match r, s with
      | Rx.eps, s => simpa [cands] using h
      | Rx.chr c, [] => simp [cands] at h
      | Rx.chr c, a :: rest => simpa [cands] using h
      | Rx.cls cs, [] => simp [cands] at h
      | Rx.cls cs, a :: rest => simpa [cands] using h
      | Rx.dot, [] => simp [cands] at h
      | Rx.dot, a :: rest => simpa [cands] using h
      | Rx.seq p q, s =>
        simp only [cands, List.mem_flatMap, List.mem_map] at h ⊢
        rcases h with ⟨lp, hp, m, hm, rfl⟩
        exact ⟨lp, ih g hfg p s lp hp, m, ih g hfg q _ m hm, rfl⟩
      | Rx.alt p q, s =>
        simp only [cands, List.mem_append] at h ⊢
        rcases h with h | h
        · exact Or.inl (ih g hfg p s l h)
        · exact Or.inr (ih g hfg q s l h)
      | Rx.star p, s =>
        simp only [cands, List.mem_append, List.mem_flatMap, List.mem_map,
          List.mem_filter] at h ⊢
        rcases h with ⟨lp, ⟨hp, hpos⟩, m, hm, rfl⟩ | h
        · exact Or.inl ⟨lp, ⟨ih g hfg p s lp hp, hpos⟩, m, ih g hfg (Rx.star p) _ m hm, rfl⟩
        · exact Or.inr h

theorem rsize_pos (r : Rx) : 1 ≤ rsize r := by
  cases r <;> simp [rsize]

theorem cands_take_congr : ∀ (f : Nat) (r : Rx) (s t : List Char) (l : Nat),
    l ∈ cands f r s → s.take l = t.take l → l ∈ cands f r t := by
  intro f
  induction f with
  | zero => intro r s t l h _; simp [cands] at h
  | succ f ih =>
    intro r s t l h ht
    match r, s with
    | Rx.eps, s =>
      simp [cands] at h
      simp [cands, h]
    | Rx.chr c, [] => simp [cands] at h
    | Rx.chr c, a :: rest =>
      simp only [cands] at h
      by_cases hac : a = c
      · rw [if_pos hac] at h
        simp only [List.mem_singleton] at h
        subst h
        match t, ht with
        | b :: t', ht =>
          simp only [List.take, List.cons.injEq] at ht
          obtain ⟨hab, -⟩ := ht
          subst hab
          simp only [cands]
          rw [if_pos hac]
          simp
      · rw [if_neg hac] at h
        simp at h
    | Rx.cls cs, [] => simp [cands] at h
    | Rx.cls cs, a :: rest =>
      simp only [cands] at h
      by_cases hac : cs.contains a = true
      · rw [if_pos hac] at h
        simp only [List.mem_singleton] at h
        subst h
        match t, ht with
        | b :: t', ht =>
          simp only [List.take, List.cons.injEq] at ht
          obtain ⟨hab, -⟩ := ht
          subst hab
          simp only [cands]
          rw [if_pos hac]
          simp
      · rw [if_neg hac] at h
        simp at h
    | Rx.dot, [] => simp [cands] at h
    | Rx.dot, a :: rest =>
      simp only [cands] at h
      by_cases hac : a = Char.ofNat 10
      · rw [if_pos hac] at h
        simp at h
      · rw [if_neg hac] at h
        simp only [List.mem_singleton] at h
        subst h
        match t, ht with
        | b :: t', ht =>
          simp only [List.take, List.cons.injEq] at ht
          obtain ⟨hab, -⟩ := ht
          subst hab
          simp only [cands]
          rw [if_neg hac]
          simp
    | Rx.seq p q, s =>
      simp only [cands, List.mem_flatMap, List.mem_map] at h ⊢
      rcases h with ⟨lp, hp, m, hm, rfl⟩
      have hlp : s.take lp = t.take lp := by
        have h1 : (s.take (lp + m)).take lp = (t.take (lp + m)).take lp := by rw [ht]
        simpa [List.take_take, Nat.min_def, Nat.le_add_right] using h1
      have hdrop : (s.drop lp).take m = (t.drop lp).take m := by
        have h1 : (s.take (lp + m)).drop lp = (t.take (lp + m)).drop lp := by rw [ht]
        rw [List.drop_take, List.drop_take] at h1
        simpa using h1
      exact ⟨lp, ih p s t lp hp hlp, m, ih q _ _ m hm hdrop, rfl⟩
    | Rx.alt p q, s =>
      simp only [cands, List.mem_append] at h ⊢
      rcases h with h | h
      · exact Or.inl (ih p s t l h ht)
      · exact Or.inr (ih q s t l h ht)
    | Rx.star p, s =>
      simp only [cands, List.mem_append, List.mem_flatMap, List.mem_map,
        List.mem_filter] at h ⊢
      rcases h with ⟨lp, ⟨hp, hpos⟩, m, hm, rfl⟩ | h
      · have hlp : s.take lp = t.take lp := by
          have h1 : (s.take (lp + m)).take lp = (t.take (lp + m)).take lp := by rw [ht]
          simpa [List.take_take, Nat.min_def, Nat.le_add_right] using h1
        have hdrop : (s.drop lp).take m = (t.drop lp).take m := by
          have h1 : (s.take (lp + m)).drop lp = (t.take (lp + m)).drop lp := by rw [ht]
          rw [List.drop_take, List.drop_take] at h1
          simpa using h1
        exact Or.inl ⟨lp, ⟨ih p s t lp hp hlp, hpos⟩, m, ih (Rx.star p) _ _ m hm hdrop, rfl⟩
      · exact Or.inr h

theorem cands_toTop : ∀ (f : Nat) (r : Rx) (s : List Char) (l : Nat),
    l ∈ cands f r s → l ∈ candsTop r s := by
  intro f
  induction f with
  | zero => intro r s l h; simp [cands] at h
  | succ f ih =>
    intro r s l h
    unfold candsTop
    match r, s with
    | Rx.eps, s =>
      simp only [cands] at h
      have h1 : 1 ≤ (s.length + 1) * rsize Rx.eps := by
        have := rsize_pos Rx.eps
        have : 1 * 1 ≤ (s.length + 1) * rsize Rx.eps :=
          Nat.mul_le_mul (by omega) this
        omega
      exact cands_mono 1 _ h1 Rx.eps s l (by simpa [cands] using h)
    | Rx.chr c, s =>
      have h1 : 1 ≤ (s.length + 1) * rsize (Rx.chr c) := by
        have := rsize_pos (Rx.chr c)
        have : 1 * 1 ≤ (s.length + 1) * rsize (Rx.chr c) :=
          Nat.mul_le_mul (by omega) this
        omega
      apply cands_mono 1 _ h1
      match s with
      | [] => simp [cands] at h
      | a :: rest => simpa [cands] using h
    | Rx.cls cs, s =>
      have h1 : 1 ≤ (s.length + 1) * rsize (Rx.cls cs) := by
        have := rsize_pos (Rx.cls cs)
        have : 1 * 1 ≤ (s.length + 1) * rsize (Rx.cls cs) :=
          Nat.mul_le_mul (by omega) this
        omega
      apply cands_mono 1 _ h1
      match s with
      | [] => simp [cands] at h
      | a :: rest => simpa [cands] using h
    | Rx.dot, s =>
      have h1 : 1 ≤ (s.length + 1) * rsize Rx.dot := by
        have := rsize_pos Rx.dot
        have : 1 * 1 ≤ (s.length + 1) * rsize Rx.dot :=
          Nat.mul_le_mul (by omega) this
        omega
      apply cands_mono 1 _ h1
      match s with
      | [] => simp [cands] at h
      | a :: rest => simpa [cands] using h
    | Rx.seq p q, s =>
      simp only [cands, List.mem_flatMap, List.mem_map] at h
      rcases h with ⟨lp, hp, m, hm, rfl⟩
      have hA := ih p s lp hp
      have hB := ih q (s.drop lp) m hm
      unfold candsTop at hA hB
      have hlp : lp ≤ s.length := cands_le_length _ _ _ _ hp
      have key : ∃ N, (s.length + 1) * rsize (Rx.seq p q) = N + 1 ∧
          (s.length + 1) * rsize p ≤ N ∧ ((s.drop lp).length + 1) * rsize q ≤ N := by
        have e1 : rsize (Rx.seq p q) = rsize p + rsize q + 1 := rfl
        have e2 : (s.length + 1) * (rsize p + rsize q + 1) =
            (s.length + 1) * rsize p + (s.length + 1) * rsize q + (s.length + 1) := by
          ring
        have e3 : ((s.drop lp).length + 1) * rsize q ≤ (s.length + 1) * rsize q := by
          apply Nat.mul_le_mul_right
          simp only [List.length_drop]
          omega
        refine ⟨(s.length + 1) * rsize (Rx.seq p q) - 1, ?_, ?_, ?_⟩
        · rw [e1, e2]; omega
        · rw [e1, e2]; omega
        · rw [e1, e2]; omega
      rcases key with ⟨N, hN, hN1, hN2⟩
      rw [hN]
      simp only [cands, List.mem_flatMap, List.mem_map]
      exact ⟨lp, cands_mono _ _ hN1 _ _ _ hA, m, cands_mono _ _ hN2 _ _ _ hB, rfl⟩
    | Rx.alt p q, s =>
      simp only [cands, List.mem_append] at h
      have key : ∃ N, (s.length + 1) * rsize (Rx.alt p q) = N + 1 ∧
          (s.length + 1) * rsize p ≤ N ∧ (s.length + 1) * rsize q ≤ N := by
        have e1 : rsize (Rx.alt p q) = rsize p + rsize q + 1 := rfl
        have e2 : (s.length + 1) * (rsize p + rsize q + 1) =
            (s.length + 1) * rsize p + (s.length + 1) * rsize q + (s.length + 1) := by
          ring
        refine ⟨(s.length + 1) * rsize (Rx.alt p q) - 1, ?_, ?_, ?_⟩
        · rw [e1, e2]; omega
        · rw [e1, e2]; omega
        · rw [e1, e2]; omega
      rcases key with ⟨N, hN, hN1, hN2⟩
      rw [hN]
      simp only [cands, List.mem_append]
      rcases h with h | h
      · have hA := ih p s l h
        unfold candsTop at hA
        exact Or.inl (cands_mono _ _ hN1 _ _ _ hA)
      · have hB := ih q s l h
        unfold candsTop at hB
        exact Or.inr (cands_mono _ _ hN2 _ _ _ hB)
    | Rx.star p, s =>
      simp only [cands, List.mem_append, List.mem_flatMap, List.mem_map,
        List.mem_filter] at h
      have e1 : rsize (Rx.star p) = rsize p + 1 := rfl
      have e2 : (s.length + 1) * (rsize p + 1) =
          (s.length + 1) * rsize p + (s.length + 1) := by ring
      rcases h with ⟨lp, ⟨hp, hpos⟩, m, hm, rfl⟩ | h
      · have hA := ih p s lp hp
        have hB := ih (Rx.star p) (s.drop lp) m hm
        unfold candsTop at hA hB
        have hlp : lp ≤ s.length := cands_le_length _ _ _ _ hp
        have hpos' : 0 < lp := by simpa using hpos
        have e3 : ((s.drop lp).length + 1) * (rsize p + 1) ≤ s.length * (rsize p + 1) := by
          apply Nat.mul_le_mul_right
          simp only [List.length_drop]
          omega
        have e4 : s.length * (rsize p + 1) + (rsize p + 1) = (s.length + 1) * (rsize p + 1) := by
          ring
        have key : ∃ N, (s.length + 1) * rsize (Rx.star p) = N + 1 ∧
            (s.length + 1) * rsize p ≤ N ∧
            ((s.drop lp).length + 1) * rsize (Rx.star p) ≤ N := by
          refine ⟨(s.length + 1) * rsize (Rx.star p) - 1, ?_, ?_, ?_⟩
          · rw [e1, e2]
            have := rsize_pos p
            omega
          · rw [e1, e2]; omega
          · rw [e1]
            rw [e1] at *
            have := rsize_pos p
            omega
        rcases key with ⟨N, hN, hN1, hN2⟩
        rw [hN]
        simp only [cands, List.mem_append, List.mem_flatMap, List.mem_map, List.mem_filter]
        exact Or.inl ⟨lp, ⟨cands_mono _ _ hN1 _ _ _ hA, hpos⟩, m,
          cands_mono _ _ hN2 _ _ _ hB, rfl⟩
      · have h1 : 1 ≤ (s.length + 1) * rsize (Rx.star p) := by
          have := rsize_pos (Rx.star p)
          have : 1 * 1 ≤ (s.length + 1) * rsize (Rx.star p) :=
            Nat.mul_le_mul (by omega) this
          omega
        apply cands_mono 1 _ h1
        simpa [cands] using h

theorem nonEmptyRx_sound : ∀ (f : Nat) (r : Rx), nonEmptyRx r = true →
    ∀ (s : List Char) (l : Nat), l ∈ cands f r s → 0 < l := by
  intro f
  induction f with
  | zero => intro r _ s l h; simp [cands] at h
  | succ f ih =>
    intro r hr s l h
    match r, s with
    | Rx.eps, s => simp [nonEmptyRx] at hr
    | Rx.chr c, [] => simp [cands] at h
    | Rx.chr c, a :: rest =>
      simp only [cands] at h
      split at h <;> simp_all
    | Rx.cls cs, [] => simp [cands] at h
    | Rx.cls cs, a :: rest =>
      simp only [cands] at h
      split at h <;> simp_all
    | Rx.dot, [] => simp [cands] at h
    | Rx.dot, a :: rest =>
      simp only [cands] at h
      split at h <;> simp_all
    | Rx.seq p q, s =>
      simp only [cands, List.mem_flatMap, List.mem_map] at h
      rcases h with ⟨lp, hp, m, hm, rfl⟩
      simp only [nonEmptyRx, Bool.or_eq_true] at hr
      rcases hr with hr | hr
      · have := ih p hr s lp hp
        omega
      · have := ih q hr _ m hm
        omega
    | Rx.alt p q, s =>
      simp only [cands, List.mem_append] at h
      simp only [nonEmptyRx, Bool.and_eq_true] at hr
      rcases h with h | h
      · exact ih p hr.1 s l h
      · exact ih q hr.2 s l h
    | Rx.star p, s => simp [nonEmptyRx] at hr

theorem allCharsIn_sound : ∀ (f : Nat) (r : Rx) (g : Char → Bool), allCharsIn r g = true →
    ∀ (s : List Char) (l : Nat), l ∈ cands f r s → ∀ c ∈ s.take l, g c = true := by
  intro f
  induction f with
  | zero => intro r g _ s l h; simp [cands] at h
  | succ f ih =>
    intro r g hg s l h c hc
    match r, s with
    | Rx.eps, s =>
      simp only [cands, List.mem_singleton] at h
      subst h
      simp at hc
    | Rx.chr b, [] => simp [cands] at h
    | Rx.chr b, a :: rest =>
      simp only [cands] at h
      by_cases hab : a = b
      · rw [if_pos hab] at h
        simp only [List.mem_singleton] at h
        subst h
        simp only [List.take, List.take_zero, List.mem_singleton] at hc
        subst hc
        subst hab
        exact hg
      · rw [if_neg hab] at h
        simp at h
    | Rx.cls cs, [] => simp [cands] at h
    | Rx.cls cs, a :: rest =>
      simp only [cands] at h
      by_cases hac : cs.contains a = true
      · rw [if_pos hac] at h
        simp only [List.mem_singleton] at h
        subst h
        simp only [List.take, List.take_zero, List.mem_singleton] at hc
        subst hc
        have ham : c ∈ cs := by simpa using hac
        exact List.all_eq_true.1 hg c ham
      · rw [if_neg hac] at h
        simp at h
    | Rx.dot, s => simp [allCharsIn] at hg
    | Rx.seq p q, s =>
      simp only [cands, List.mem_flatMap, List.mem_map] at h
      rcases h with ⟨lp, hp, m, hm, rfl⟩
      simp only [allCharsIn, Bool.and_eq_true] at hg
      rw [List.take_add, List.mem_append] at hc
      rcases hc with hc | hc
      · exact ih p g hg.1 s lp hp c hc
      · exact ih q g hg.2 _ m hm c hc
    | Rx.alt p q, s =>
      simp only [cands, List.mem_append] at h
      simp only [allCharsIn, Bool.and_eq_true] at hg
      rcases h with h | h
      · exact ih p g hg.1 s l h c hc
      · exact ih q g hg.2 s l h c hc
    | Rx.star p, s =>
      simp only [cands, List.mem_append, List.mem_flatMap, List.mem_map,
        List.mem_filter] at h
      simp only [allCharsIn] at hg
      rcases h with ⟨lp, ⟨hp, _⟩, m, hm, rfl⟩ | h
      · rw [List.take_add, List.mem_append] at hc
        rcases hc with hc | hc
        · exact ih p g hg s lp hp c hc
        · exact ih (Rx.star p) g (by simpa [allCharsIn] using hg) _ m hm c hc
      · simp only [List.mem_singleton] at h
        subst h
        simp at hc

theorem mustContain_sound : ∀ (f : Nat) (r : Rx) (key : Char → Bool),
    mustContain r key = true →
    ∀ (s : List Char) (l : Nat), l ∈ cands f r s → ∃ c ∈ s.take l, key c = true := by
  intro f
  induction f with
  | zero => intro r key _ s l h; simp [cands] at h
  | succ f ih =>
    intro r key hk s l h
    match r, s with
    | Rx.eps, s => simp [mustContain] at hk
    | Rx.chr b, [] => simp [cands] at h
    | Rx.chr b, a :: rest =>
      simp only [cands] at h
      by_cases hab : a = b
      · rw [if_pos hab] at h
        simp only [List.mem_singleton] at h
        subst h
        subst hab
        exact ⟨a, by simp, hk⟩
      · rw [if_neg hab] at h
        simp at h
    | Rx.cls cs, [] => simp [cands] at h
    | Rx.cls cs, a :: rest =>
      simp only [cands] at h
      by_cases hac : cs.contains a = true
      · rw [if_pos hac] at h
        simp only [List.mem_singleton] at h
        subst h
        refine ⟨a, by simp, ?_⟩
        have ham : a ∈ cs := by simpa using hac
        exact List.all_eq_true.1 hk a ham
      · rw [if_neg hac] at h
        simp at h
    | Rx.dot, s => simp [mustContain] at hk
    | Rx.seq p q, s =>
      simp only [cands, List.mem_flatMap, List.mem_map] at h
      rcases h with ⟨lp, hp, m, hm, rfl⟩
      simp only [mustContain, Bool.or_eq_true] at hk
      rcases hk with hk | hk
      · rcases ih p key hk s lp hp with ⟨c, hc, hkc⟩
        exact ⟨c, by rw [List.take_add, List.mem_append]; exact Or.inl hc, hkc⟩
      · rcases ih q key hk _ m hm with ⟨c, hc, hkc⟩
        exact ⟨c, by rw [List.take_add, List.mem_append]; exact Or.inr hc, hkc⟩
    | Rx.alt p q, s =>
      simp only [cands, List.mem_append] at h
      simp only [mustContain, Bool.and_eq_true] at hk
      rcases h with h | h
      · exact ih p key hk.1 s l h
      · exact ih q key hk.2 s l h
    | Rx.star p, s => simp [mustContain] at hk

/-- No `\b body \b` match starts at any position of `s`, where `pw` is
the word-ness of the character preceding `s`. -/
def cleanF (body : Rx) : Bool → List Char → Prop
  | _, [] => True
  | pw, c :: rest => matchAt body pw (c :: rest) = none ∧ cleanF body (isWordChar c) rest

/-- Word-ness of the character just before the position following
prefix `A`, when the position before `A` has word-ness `pw`. -/
def lastW (pw : Bool) (A : List Char) : Bool :=
  match A.getLast? with
  | some c => isWordChar c
  | none => pw

theorem lastW_nil (pw : Bool) : lastW pw [] = pw := rfl

theorem lastW_cons (pw : Bool) (c : Char) (A : List Char) :
    lastW pw (c :: A) = lastW (isWordChar c) A := by
  match A with
  | [] => rfl
  | a :: A' =>
    unfold lastW
    rw [List.getLast?_cons_cons]
    cases h : (a :: A').getLast? with
    | some b => rfl
    | none =>
      exfalso
      have : (a :: A') ≠ [] := by simp
      simp only [List.getLast?_eq_none_iff] at h
      exact this h

theorem matchAt_nil (body : Rx) (pw : Bool) : matchAt body pw [] = none := by
  unfold matchAt
  split
  · apply List.find?_eq_none.2
    intro l _
    simp only [List.length_nil, Bool.and_eq_true, decide_eq_true_eq]
    intro hcon
    omega
  · rfl

theorem matchAt_some_spec (body : Rx) (pw : Bool) (s : List Char) (l : Nat)
    (h : matchAt body pw s = some l) :
    (pw != headWord s) = true ∧ l ∈ candsTop body s ∧ 0 < l ∧ l ≤ s.length ∧
    (isWordO ((s.take l).getLast?) != headWord (s.drop l)) = true := by
  unfold matchAt at h
  split at h
  · have hmem := List.mem_of_find?_eq_some h
    have hp := List.find?_some h
    simp only [Bool.and_eq_true, decide_eq_true_eq] at hp
    refine ⟨by assumption, hmem, hp.1.1, hp.1.2, hp.2⟩
  · exact absurd h (by simp)

theorem matchAt_eq_none_of_no_cand (body : Rx) (pw : Bool) (s : List Char)
    (h : ∀ l, l ∈ candsTop body s → 0 < l → l ≤ s.length →
      (isWordO ((s.take l).getLast?) != headWord (s.drop l)) = true → False) :
    matchAt body pw s = none := by
  unfold matchAt
  split
  · apply List.find?_eq_none.2
    intro l hl hp
    simp only [Bool.and_eq_true, decide_eq_true_eq] at hp
    exact h l hl hp.1.1 hp.1.2 hp.2
  · rfl

theorem matchAt_none_of_leadFalse (body : Rx) (pw : Bool) (s : List Char)
    (h : (pw != headWord s) = false) : matchAt body pw s = none := by
  unfold matchAt
  split
  · simp_all
  · rfl

theorem firstMatch_spec : ∀ (s : List Char) (body : Rx) (pw : Bool) (k l : Nat),
    firstMatch body pw s = some (k, l) →
    (∀ i, i < k → matchAt body (lastW pw (s.take i)) (s.drop i) = none) ∧
    matchAt body (lastW pw (s.take k)) (s.drop k) = some l := by
  intro s
  induction s with
  | nil =>
    intro body pw k l h
    unfold firstMatch at h
    rw [matchAt_nil] at h
    simp at h
  | cons c rest ih =>
    intro body pw k l h
    cases hm : matchAt body pw (c :: rest) with
    | some l0 =>
      have he : firstMatch body pw (c :: rest) = some (0, l0) := by
        simp only [firstMatch]
        rw [hm]
      rw [he] at h
      simp only [Option.some.injEq, Prod.mk.injEq] at h
      obtain ⟨hk, hl⟩ := h
      subst hk
      subst hl
      constructor
      · intro i hi
        omega
      · simpa using hm
    | none =>
      have he : firstMatch body pw (c :: rest) =
          (firstMatch body (isWordChar c) rest).map (fun kl => (kl.1 + 1, kl.2)) := by
        simp only [firstMatch]
        rw [hm]
      rw [he] at h
      simp only [Option.map_eq_some'] at h
      rcases h with ⟨⟨k', l'⟩, hfm, hkl⟩
      simp only [Prod.mk.injEq] at hkl
      obtain ⟨hk, hl⟩ := hkl
      have hspec := ih body (isWordChar c) k' l' hfm
      constructor
      · intro i hi
        match i with
        | 0 => simpa [lastW_nil] using hm
        | i + 1 =>
          have hi' : i < k' := by omega
          have := hspec.1 i hi'
          simpa [List.take, List.drop, lastW_cons] using this
      · have h2 := hspec.2
        rw [← hk, ← hl]
        simpa [List.take, List.drop, lastW_cons] using h2

theorem firstMatch_none_iff_clean : ∀ (s : List Char) (body : Rx) (pw : Bool),
    firstMatch body pw s = none ↔ cleanF body pw s := by
  intro s
  induction s with
  | nil =>
    intro body pw
    unfold firstMatch
    rw [matchAt_nil]
    simp [cleanF]
  | cons c rest ih =>
    intro body pw
    cases hm : matchAt body pw (c :: rest) with
    | some l0 =>
      have he : firstMatch body pw (c :: rest) = some (0, l0) := by
        simp only [firstMatch]
        rw [hm]
      rw [he]
      simp [cleanF, hm]
    | none =>
      have he : firstMatch body pw (c :: rest) =
          (firstMatch body (isWordChar c) rest).map (fun kl => (kl.1 + 1, kl.2)) := by
        simp only [firstMatch]
        rw [hm]
      rw [he]
      simp [cleanF, hm, Option.map_eq_none, ih body (isWordChar c)]

theorem clean_matchAt_none : ∀ (s : List Char) (body : Rx) (pw : Bool),
    cleanF body pw s → ∀ i, matchAt body (lastW pw (s.take i)) (s.drop i) = none := by
  intro s
  induction s with
  | nil =>
    intro body pw _ i
    simp only [List.take_nil, List.drop_nil]
    exact matchAt_nil body _
  | cons c rest ih =>
    intro body pw hc i
    match i with
    | 0 => simpa [lastW_nil] using hc.1
    | i + 1 =>
      have := ih body (isWordChar c) hc.2 i
      simpa [List.take, List.drop, lastW_cons] using this

theorem clean_suffix : ∀ (s : List Char) (body : Rx) (pw : Bool),
    cleanF body pw s → ∀ m, cleanF body (lastW pw (s.take m)) (s.drop m) := by
  intro s
  induction s with
  | nil =>
    intro body pw h m
    simp only [List.take_nil, List.drop_nil]
    exact h
  | cons c rest ih =>
    intro body pw hc m
    match m with
    | 0 => simpa [lastW_nil] using hc
    | m + 1 =>
      have := ih body (isWordChar c) hc.2 m
      simpa [List.take, List.drop, lastW_cons] using this

theorem cleanF_append : ∀ (A : List Char) (body : Rx) (pw : Bool) (B : List Char),
    (∀ i, i < A.length →
      matchAt body (lastW pw (A.take i)) (A.drop i ++ B) = none) →
    cleanF body (lastW pw A) B → cleanF body pw (A ++ B) := by
  intro A
  induction A with
  | nil =>
    intro body pw B _ hB
    simpa [lastW_nil] using hB
  | cons c A' ih =>
    intro body pw B hzone hB
    have hne : ((c :: A') ++ B) = c :: (A' ++ B) := rfl
    rw [hne]
    constructor
    · have := hzone 0 (by simp)
      simpa [lastW_nil] using this
    · apply ih body (isWordChar c) B
      · intro i hi
        have := hzone (i + 1) (by simpa using Nat.succ_lt_succ hi)
        simpa [List.take, List.drop, lastW_cons] using this
      · rw [lastW_cons] at hB
        exact hB

/-- Character test: not a square bracket. -/
def notBracket (c : Char) : Bool := !(c = '[') && !(c = ']')

theorem matchAt_none_headBad (body : Rx) (hgood : allCharsIn body notBracket = true)
    (pwx : Bool) (c : Char) (hc : notBracket c = false) (rest : List Char) :
    matchAt body pwx (c :: rest) = none := by
  apply matchAt_eq_none_of_no_cand
  intro l hl hpos _ _
  have hmem : c ∈ (c :: rest).take l := by
    match l, hpos with
    | l + 1, _ => simp [List.take]
  have := allCharsIn_sound _ body notBracket hgood _ l hl c hmem
  rw [hc] at this
  exact Bool.false_ne_true this

theorem matchAt_none_inner (body : Rx) (key : Char → Bool)
    (hgood : allCharsIn body notBracket = true) (hkey : mustContain body key = true)
    (u : List Char) (hinner : u.all (fun c => !(key c)) = true)
    (pwx : Bool) (B : List Char) :
    matchAt body pwx (u ++ ']' :: B) = none := by
  apply matchAt_eq_none_of_no_cand
  intro l hl hpos _ _
  have hchars := allCharsIn_sound _ body notBracket hgood _ l hl
  have hle : l ≤ u.length := by
    by_contra hgt
    have hsplit : (u ++ ']' :: B).take l = u ++ (']' :: B).take (l - u.length) := by
      rw [List.take_append_eq_append_take, List.take_of_length_le (by omega)]
    have hmem : (']' : Char) ∈ (u ++ ']' :: B).take l := by
      rw [hsplit]
      apply List.mem_append_right
      match hx : l - u.length, (by omega : 0 < l - u.length) with
      | m + 1, _ => simp [List.take]
    have := hchars ']' hmem
    simp [notBracket] at this
  rcases mustContain_sound _ body key hkey _ l hl with ⟨c, hcmem, hck⟩
  have hcu : c ∈ u := by
    rw [List.take_append_of_le_length hle] at hcmem
    exact List.mem_of_mem_take hcmem
  have := List.all_eq_true.1 hinner c hcu
  rw [hck] at this
  simp at this

theorem marker_zone (body : Rx) (key : Char → Bool) (inner : List Char)
    (hgood : allCharsIn body notBracket = true) (hkey : mustContain body key = true)
    (hinner : inner.all (fun c => !(key c)) = true) :
    ∀ i, i < ('[' :: inner ++ [']']).length → ∀ (pwx : Bool) (B : List Char),
      matchAt body pwx ((('[' :: inner ++ [']']).drop i) ++ B) = none := by
  intro i hi pwx B
  match i with
  | 0 =>
    have : (('[' :: inner ++ [']']).drop 0) ++ B = '[' :: (inner ++ [']'] ++ B) := by simp
    rw [this]
    exact matchAt_none_headBad body hgood pwx '[' (by simp [notBracket]) _
  | j + 1 =>
    have hj : j ≤ inner.length := by
      simp only [List.length_cons, List.length_append, List.length_cons,
        List.length_nil] at hi
      omega
    have hdrop : ('[' :: inner ++ [']']).drop (j + 1) = inner.drop j ++ [']'] := by
      have : ('[' :: inner ++ [']']).drop (j + 1) = (inner ++ [']']).drop j := by
        simp [List.drop]
      rw [this, List.drop_append_of_le_length hj]
    rw [hdrop]
    have : inner.drop j ++ [']'] ++ B = inner.drop j ++ ']' :: B := by simp
    rw [this]
    exact matchAt_none_inner body key hgood hkey (inner.drop j)
      (by
        rw [List.all_eq_true] at hinner ⊢
        intro c hc
        exact hinner c (List.mem_of_mem_drop hc)) pwx B

theorem headWord_append_left (A B : List Char) (h : A ≠ []) :
    headWord (A ++ B) = headWord A := by
  match A with
  | a :: A' => rfl

theorem headWord_take (m : Nat) (u : List Char) (hm : 0 < m) :
    headWord (u.take m) = headWord u := by
  match u, m with
  | [], _ => simp
  | a :: u', m + 1 => rfl

theorem matchAt_ne_none_of_cand (body : Rx) (pw : Bool) (s : List Char) (l : Nat)
    (hlead : (pw != headWord s) = true) (hl : l ∈ candsTop body s) (hpos : 0 < l)
    (hle : l ≤ s.length)
    (htr : (isWordO ((s.take l).getLast?) != headWord (s.drop l)) = true) :
    matchAt body pw s ≠ none := by
  unfold matchAt
  rw [if_pos hlead]
  intro hnone
  have := List.find?_eq_none.1 hnone l hl
  apply this
  simp only [Bool.and_eq_true, decide_eq_true_eq]
  exact ⟨⟨hpos, hle⟩, htr⟩

theorem lastW_eq_isWordO (pw : Bool) (A : List Char) (h : A ≠ []) :
    lastW pw A = isWordO A.getLast? := by
  unfold lastW
  cases hx : A.getLast? with
  | some c => rfl
  | none => exact absurd (by simpa using hx) h

theorem zone1_transfer (q : Rx) (hgoodq : allCharsIn q notBracket = true)
    (s : List Char) (pw : Bool) (k : Nat) (Mtail : List Char)
    (hk : k ≤ s.length)
    (hklead : (lastW pw (s.take k) != headWord (s.drop k)) = true)
    (i : Nat) (hi : i < k)
    (hmatch : matchAt q (lastW pw ((s.take k).take i))
      ((s.take k).drop i ++ '[' :: Mtail) ≠ none) :
    matchAt q (lastW pw (s.take i)) (s.drop i) ≠ none := by
  cases hv : matchAt q (lastW pw ((s.take k).take i)) ((s.take k).drop i ++ '[' :: Mtail) with
  | none => exact absurd hv hmatch
  | some l =>
    have hsp := matchAt_some_spec _ _ _ _ hv
    obtain ⟨hlead, hl, hpos, hle, htr⟩ := hsp
    have hA : (s.take k).drop i = (s.drop i).take (k - i) := by
      rw [List.drop_take]
    have hAlen : ((s.take k).drop i).length = k - i := by
      simp only [List.length_drop, List.length_take]
      omega
    have hAne : (s.take k).drop i ≠ [] := by
      intro hx
      rw [hx] at hAlen
      simp only [List.length_nil] at hAlen
      omega
    have hlk : l ≤ k - i := by
      by_contra hgt
      have hchars := allCharsIn_sound _ q notBracket hgoodq _ l hl
      have hmem : ('[' : Char) ∈ (((s.take k).drop i) ++ '[' :: Mtail).take l := by
        rw [List.take_append_eq_append_take, List.take_of_length_le (by omega)]
        apply List.mem_append_right
        have hpos2 : 0 < l - ((s.take k).drop i).length := by omega
        match hx : l - ((s.take k).drop i).length, hpos2 with
        | m + 1, _ => simp [List.take]
      have := hchars '[' hmem
      simp [notBracket] at this
    have htake : (((s.take k).drop i) ++ '[' :: Mtail).take l = (s.drop i).take l := by
      rw [List.take_append_of_le_length (by omega), hA, List.take_take]
      congr 1
      omega
    have hlcand : l ∈ candsTop q (s.drop i) := by
      apply cands_toTop
      exact cands_take_congr _ q _ _ l hl htake
    have hctx : lastW pw ((s.take k).take i) = lastW pw (s.take i) := by
      rw [List.take_take, Nat.min_eq_left (Nat.le_of_lt hi)]
    have hlens : l ≤ (s.drop i).length := by
      simp only [List.length_drop]
      omega
    have hheads : headWord (((s.take k).drop i) ++ '[' :: Mtail) = headWord (s.drop i) := by
      rw [headWord_append_left _ _ hAne, hA, headWord_take _ _ (by omega)]
    have htr2 : (isWordO (((s.drop i).take l).getLast?) !=
        headWord ((s.drop i).drop l)) = true := by
      by_cases hcase : l < k - i
      · have hble : l ≤ ((s.take k).drop i).length := by
          rw [hAlen]
          omega
        have hdropy : (((s.take k).drop i) ++ '[' :: Mtail).drop l =
            (((s.take k).drop i).drop l) ++ '[' :: Mtail := by
          rw [List.drop_append_of_le_length hble]
        have hBlen : (((s.take k).drop i).drop l).length = k - i - l := by
          rw [List.length_drop, hAlen]
        have hBne : ((s.take k).drop i).drop l ≠ [] := by
          intro hx
          rw [hx] at hBlen
          simp only [List.length_nil] at hBlen
          omega
        have hh : headWord ((((s.take k).drop i) ++ '[' :: Mtail).drop l) =
            headWord ((s.drop i).drop l) := by
          rw [hdropy, headWord_append_left _ _ hBne, hA, List.drop_take,
            headWord_take _ _ (by omega)]
        rw [← hh, ← htake]
        exact htr
      · have hleq : l = k - i := by omega
        have hdd : (s.drop i).drop l = s.drop k := by
          rw [List.drop_drop]
          congr 1
          omega
        have hsplit : s.take k = s.take i ++ (s.drop i).take l := by
          conv_lhs => rw [← List.take_append_drop i s]
          rw [List.take_append_eq_append_take]
          congr 1
          · rw [List.take_take]
            congr 1
            omega
          · congr 1
            simp only [List.length_take]
            omega
        have hgl : ((s.drop i).take l).getLast? = (s.take k).getLast? := by
          rw [hsplit]
          have hne2 : (s.drop i).take l ≠ [] := by
            intro hx
            have : ((s.drop i).take l).length = 0 := by rw [hx]; rfl
            simp only [List.length_take, List.length_drop] at this
            omega
          rw [List.getLast?_append_of_ne_nil _ hne2]
        have hlw : lastW pw (s.take k) = isWordO ((s.take k).getLast?) := by
          apply lastW_eq_isWordO
          intro hx
          have : (s.take k).length = 0 := by rw [hx]; rfl
          simp only [List.length_take] at this
          omega
        rw [hdd, hgl, ← hlw]
        exact hklead
    exact matchAt_ne_none_of_cand q _ _ l (by rw [← hctx, ← hheads]; exact hlead)
      hlcand hpos hlens htr2

theorem lastW_marker (pwx : Bool) (inner : List Char) :
    lastW pwx ('[' :: inner ++ [']']) = isWordChar ']' := by
  unfold lastW
  have : ('[' :: inner ++ [']']) = ('[' :: inner) ++ [']'] := rfl
  rw [this, List.getLast?_concat]

theorem take_getLast?_split (s : List Char) (k l0 : Nat) (hl0 : 0 < l0)
    (hkl : k + l0 ≤ s.length) :
    ((s.drop k).take l0).getLast? = (s.take (k + l0)).getLast? := by
  have hsplit : s.take (k + l0) = s.take k ++ (s.drop k).take l0 := by
    conv_lhs => rw [← List.take_append_drop k s]
    rw [List.take_append_eq_append_take]
    congr 1
    · rw [List.take_take, Nat.min_eq_right (by omega)]
    · congr 1
      simp only [List.length_take]
      omega
  rw [hsplit]
  rw [List.getLast?_append_of_ne_nil]
  intro hx
  have : ((s.drop k).take l0).length = 0 := by rw [hx]; rfl
  simp only [List.length_take, List.length_drop] at this
  omega

theorem assemble_clean (q : Rx) (inner : List Char) (key : Char → Bool)
    (hgoodq : allCharsIn q notBracket = true) (hkeyq : mustContain q key = true)
    (hinnerq : inner.all (fun c => !(key c)) = true)
    (s : List Char) (pw : Bool) (k l0 : Nat) (y' : List Char)
    (hkl : k + l0 ≤ s.length) (hl0 : 0 < l0)
    (hlead : (lastW pw (s.take k) != headWord (s.drop k)) = true)
    (htrail : (isWordO (((s.drop k).take l0).getLast?) !=
      headWord ((s.drop k).drop l0)) = true)
    (H1 : ∀ i, i < k → matchAt q (lastW pw (s.take i)) (s.drop i) = none)
    (hheady : y' = [] ∨ y'.head? = some '[' ∨ y'.head? = (s.drop (k + l0)).head?)
    (hcleany : cleanF q (isWordO ((s.take (k + l0)).getLast?)) y') :
    cleanF q pw (s.take k ++ (('[' :: inner ++ [']']) ++ y')) := by
  have hM : ('[' :: inner ++ [']']) ++ y' = '[' :: (inner ++ ']' :: y') := by simp
  -- clean of the output tail in the post-bracket context
  have hcleanyF : cleanF q false y' := by
    cases hpw2 : isWordO ((s.take (k + l0)).getLast?) with
    | false => rw [hpw2] at hcleany; exact hcleany
    | true =>
      rw [hpw2] at hcleany
      match y', hheady, hcleany with
      | [], _, _ => trivial
      | c :: r, hheady, hcleany =>
        refine ⟨?_, hcleany.2⟩
        rcases hheady with hx | hx | hx
        · exact absurd hx (by simp)
        · simp only [List.head?_cons, Option.some.injEq] at hx
          subst hx
          exact matchAt_none_headBad q hgoodq false '[' (by simp [notBracket]) r
        · -- the scanned match's trailing boundary makes the next character non-word
          have htr' : (isWordO ((s.take (k + l0)).getLast?) !=
              headWord (s.drop (k + l0))) = true := by
            rw [← take_getLast?_split s k l0 hl0 hkl]
            have : (s.drop k).drop l0 = s.drop (k + l0) := by
              rw [List.drop_drop, Nat.add_comm]
            rw [← this]
            exact htrail
          rw [hpw2] at htr'
          have hnw : headWord (s.drop (k + l0)) = false := by
            cases hx2 : headWord (s.drop (k + l0))
            · rfl
            · rw [hx2] at htr'; simp at htr'
          apply matchAt_none_of_leadFalse
          unfold headWord
          simp only [List.head?_cons] at hx ⊢
          unfold headWord at hnw
          rw [hx, hnw]
          rfl
  -- assemble the three zones
  apply cleanF_append
  · -- zone 1: a match here would have been found by the scan
    intro i hilen
    have hik : i < k := by
      simp only [List.length_take] at hilen
      omega
    by_contra hne
    have := zone1_transfer q hgoodq s pw k (inner ++ ']' :: y') (by omega) hlead i hik
      (by rw [← hM]; exact hne)
    exact this (H1 i hik)
  · -- zones 2 and 3: the marker text and the recursive output
    rw [hM]
    have hM2 : ('[' :: (inner ++ ']' :: y')) = ('[' :: inner ++ [']']) ++ y' := by simp
    rw [hM2]
    apply cleanF_append
    · intro i hilen
      have := marker_zone q key inner hgoodq hkeyq hinnerq i hilen
        (lastW (lastW pw (s.take k)) (('[' :: inner ++ [']']).take i)) y'
      exact this
    · rw [lastW_marker]
      have : isWordChar ']' = false := by decide
      rw [this]
      exact hcleanyF

theorem reSubGo_head (fuel : Nat) : ∀ (body : Rx) (M : List Char) (pwx : Bool)
    (t : List Char), M ≠ [] →
    reSubGo fuel body M pwx t = [] ∨
    (reSubGo fuel body M pwx t).head? = M.head? ∨
    (reSubGo fuel body M pwx t).head? = t.head? := by
  intro body M pwx t hM
  match fuel with
  | 0 => right; right; rfl
  | f + 1 =>
    cases hfm : firstMatch body pwx t with
    | none =>
      right; right
      simp only [reSubGo]
      rw [hfm]
    | some kl =>
      obtain ⟨k, l0⟩ := kl
      have heq : reSubGo (f + 1) body M pwx t =
          t.take k ++ (M ++ reSubGo f body M
            (isWordO ((t.take (k + l0)).getLast?)) (t.drop (k + l0))) := by
        simp only [reSubGo]
        rw [hfm]
        simp [List.append_assoc]
      rw [heq]
      match k with
      | 0 =>
        right; left
        simp only [List.take_zero, List.nil_append]
        match M, hM with
        | m :: M', _ => rfl
      | k + 1 =>
        have hspec := firstMatch_spec t body pwx (k + 1) l0 hfm
        have hms := matchAt_some_spec _ _ _ _ hspec.2
        have hlen : k + 1 + l0 ≤ t.length := by
          have := hms.2.2.2.1
          have hpos := hms.2.2.1
          simp only [List.length_drop] at this
          omega
        match t, hlen with
        | [], h =>
          simp only [List.length_nil] at h
          omega
        | c :: t', _ =>
          right; right
          rfl

theorem take_ne_nil_of_pos (s : List Char) (m : Nat) (hm : 0 < m) (hms : m ≤ s.length) :
    s.take m ≠ [] := by
  intro hx
  have : (s.take m).length = 0 := by rw [hx]; rfl
  simp only [List.length_take] at this
  omega

theorem reSubGo_self_clean (body : Rx) (inner : List Char) (key : Char → Bool)
    (hgood : allCharsIn body notBracket = true) (hkey : mustContain body key = true)
    (hinner : inner.all (fun c => !(key c)) = true) :
    ∀ (fuel : Nat) (pw : Bool) (s : List Char), s.length < fuel →
      cleanF body pw (reSubGo fuel body ('[' :: inner ++ [']']) pw s) := by
  intro fuel
  induction fuel with
  | zero => intro pw s h; omega
  | succ f ih =>
    intro pw s hlen
    cases hfm : firstMatch body pw s with
    | none =>
      have heq : reSubGo (f + 1) body ('[' :: inner ++ [']']) pw s = s := by
        simp only [reSubGo]
        rw [hfm]
      rw [heq]
      exact (firstMatch_none_iff_clean s body pw).1 hfm
    | some kl =>
      obtain ⟨k, l0⟩ := kl
      have hspec := firstMatch_spec s body pw k l0 hfm
      have hms := matchAt_some_spec _ _ _ _ hspec.2
      have hl0 : 0 < l0 := hms.2.2.1
      have hkl : k + l0 ≤ s.length := by
        have := hms.2.2.2.1
        simp only [List.length_drop] at this
        omega
      have heq : reSubGo (f + 1) body ('[' :: inner ++ [']']) pw s =
          s.take k ++ (('[' :: inner ++ [']']) ++ reSubGo f body ('[' :: inner ++ [']'])
            (isWordO ((s.take (k + l0)).getLast?)) (s.drop (k + l0))) := by
        simp only [reSubGo]
        rw [hfm]
        simp [List.append_assoc]
      rw [heq]
      apply assemble_clean body inner key hgood hkey hinner s pw k l0 _ hkl hl0
        hms.1 hms.2.2.2.2 hspec.1
      · rcases reSubGo_head f body ('[' :: inner ++ [']'])
          (isWordO ((s.take (k + l0)).getLast?)) (s.drop (k + l0)) (by simp) with hx | hx | hx
        · exact Or.inl hx
        · exact Or.inr (Or.inl hx)
        · exact Or.inr (Or.inr hx)
      · apply ih
        simp only [List.length_drop]
        omega

theorem reSubGo_preserves_clean (p : Rx) (inner : List Char) (q : Rx) (key : Char → Bool)
    (hgoodq : allCharsIn q notBracket = true) (hkeyq : mustContain q key = true)
    (hinnerq : inner.all (fun c => !(key c)) = true) :
    ∀ (fuel : Nat) (pw : Bool) (s : List Char), s.length < fuel → cleanF q pw s →
      cleanF q pw (reSubGo fuel p ('[' :: inner ++ [']']) pw s) := by
  intro fuel
  induction fuel with
  | zero => intro pw s h _; omega
  | succ f ih =>
    intro pw s hlen hclean
    cases hfm : firstMatch p pw s with
    | none =>
      have heq : reSubGo (f + 1) p ('[' :: inner ++ [']']) pw s = s := by
        simp only [reSubGo]
        rw [hfm]
      rw [heq]
      exact hclean
    | some kl =>
      obtain ⟨k, l0⟩ := kl
      have hspec := firstMatch_spec s p pw k l0 hfm
      have hms := matchAt_some_spec _ _ _ _ hspec.2
      have hl0 : 0 < l0 := hms.2.2.1
      have hkl : k + l0 ≤ s.length := by
        have := hms.2.2.2.1
        simp only [List.length_drop] at this
        omega
      have heq : reSubGo (f + 1) p ('[' :: inner ++ [']']) pw s =
          s.take k ++ (('[' :: inner ++ [']']) ++ reSubGo f p ('[' :: inner ++ [']'])
            (isWordO ((s.take (k + l0)).getLast?)) (s.drop (k + l0))) := by
        simp only [reSubGo]
        rw [hfm]
        simp [List.append_assoc]
      rw [heq]
      apply assemble_clean q inner key hgoodq hkeyq hinnerq s pw k l0 _ hkl hl0
        hms.1 hms.2.2.2.2 (fun i _ => clean_matchAt_none s q pw hclean i)
      · rcases reSubGo_head f p ('[' :: inner ++ [']'])
          (isWordO ((s.take (k + l0)).getLast?)) (s.drop (k + l0)) (by simp) with hx | hx | hx
        · exact Or.inl hx
        · exact Or.inr (Or.inl hx)
        · exact Or.inr (Or.inr hx)
      · apply ih
        · simp only [List.length_drop]
          omega
        · have hs := clean_suffix s q pw hclean (k + l0)
          have hctx : lastW pw (s.take (k + l0)) = isWordO ((s.take (k + l0)).getLast?) :=
            lastW_eq_isWordO pw _ (take_ne_nil_of_pos s (k + l0) (by omega) hkl)
          rw [hctx] at hs
          exact hs

theorem reSub_identity_of_clean (body : Rx) (M : List Char) (pw : Bool) (s : List Char)
    (h : cleanF body pw s) : reSubGo (s.length + 1) body M pw s = s := by
  have hfm : firstMatch body pw s = none := (firstMatch_none_iff_clean s body pw).2 h
  simp only [reSubGo]
  rw [hfm]

theorem reSub_self_clean (body : Rx) (inner : List Char) (key : Char → Bool)
    (hgood : allCharsIn body notBracket = true) (hkey : mustContain body key = true)
    (hinner : inner.all (fun c => !(key c)) = true) (s : List Char) :
    cleanF body false (reSub body ('[' :: inner ++ [']']) s) :=
  reSubGo_self_clean body inner key hgood hkey hinner (s.length + 1) false s (Nat.lt_succ_self _)

theorem reSub_preserves_clean (p : Rx) (inner : List Char) (q : Rx) (key : Char → Bool)
    (hgoodq : allCharsIn q notBracket = true) (hkeyq : mustContain q key = true)
    (hinnerq : inner.all (fun c => !(key c)) = true) (s : List Char)
    (h : cleanF q false s) :
    cleanF q false (reSub p ('[' :: inner ++ [']']) s) :=
  reSubGo_preserves_clean p inner q key hgoodq hkeyq hinnerq (s.length + 1) false s
    (Nat.lt_succ_self _) h

theorem reSub_id (body : Rx) (M : List Char) (s : List Char) (h : cleanF body false s) :
    reSub body M s = s :=
  reSub_identity_of_clean body M false s h

theorem scrub_pii_unfold (x : List Char) : scrub_pii x =
    reSub ccBody "[CREDIT_CARD_REDACTED]".data
      (reSub dobBody "[DOB_REDACTED]".data
        (reSub emailBody "[EMAIL_REDACTED]".data
          (reSub phoneBody "[PHONE_REDACTED]".data
            (reSub ssnBody "[SSN_REDACTED]".data x)))) := rfl

theorem mSSN : ('[' :: "SSN_REDACTED".data ++ [']']) = "[SSN_REDACTED]".data := by decide

theorem mPHONE : ('[' :: "PHONE_REDACTED".data ++ [']']) = "[PHONE_REDACTED]".data := by decide

theorem mEMAIL : ('[' :: "EMAIL_REDACTED".data ++ [']']) = "[EMAIL_REDACTED]".data := by decide

theorem mDOB : ('[' :: "DOB_REDACTED".data ++ [']']) = "[DOB_REDACTED]".data := by decide

theorem mCC : ('[' :: "CREDIT_CARD_REDACTED".data ++ [']']) = "[CREDIT_CARD_REDACTED]".data := by
  decide

theorem scrub_clean_ssn (x : List Char) : cleanF ssnBody false (scrub_pii x) := by
  rw [scrub_pii_unfold, ← mSSN, ← mPHONE, ← mEMAIL, ← mDOB, ← mCC]
  apply reSub_preserves_clean ccBody _ ssnBody Char.isDigit (by decide) (by decide) (by decide)
  apply reSub_preserves_clean dobBody _ ssnBody Char.isDigit (by decide) (by decide) (by decide)
  apply reSub_preserves_clean emailBody _ ssnBody Char.isDigit (by decide) (by decide) (by decide)
  apply reSub_preserves_clean phoneBody _ ssnBody Char.isDigit (by decide) (by decide) (by decide)
  exact reSub_self_clean ssnBody _ Char.isDigit (by decide) (by decide) (by decide) x

theorem scrub_clean_phone (x : List Char) : cleanF phoneBody false (scrub_pii x) := by
  rw [scrub_pii_unfold, ← mPHONE, ← mEMAIL, ← mDOB, ← mCC]
  apply reSub_preserves_clean ccBody _ phoneBody Char.isDigit (by decide) (by decide) (by decide)
  apply reSub_preserves_clean dobBody _ phoneBody Char.isDigit (by decide) (by decide) (by decide)
  apply reSub_preserves_clean emailBody _ phoneBody Char.isDigit (by decide) (by decide) (by decide)
  exact reSub_self_clean phoneBody _ Char.isDigit (by decide) (by decide) (by decide) _

theorem scrub_clean_email (x : List Char) : cleanF emailBody false (scrub_pii x) := by
  rw [scrub_pii_unfold, ← mEMAIL, ← mDOB, ← mCC]
  apply reSub_preserves_clean ccBody _ emailBody (fun c => c == '@') (by decide) (by decide)
    (by decide)
  apply reSub_preserves_clean dobBody _ emailBody (fun c => c == '@') (by decide) (by decide)
    (by decide)
  exact reSub_self_clean emailBody _ (fun c => c == '@') (by decide) (by decide) (by decide) _

theorem scrub_clean_dob (x : List Char) : cleanF dobBody false (scrub_pii x) := by
  rw [scrub_pii_unfold, ← mDOB, ← mCC]
  apply reSub_preserves_clean ccBody _ dobBody Char.isDigit (by decide) (by decide) (by decide)
  exact reSub_self_clean dobBody _ Char.isDigit (by decide) (by decide) (by decide) _

theorem scrub_clean_cc (x : List Char) : cleanF ccBody false (scrub_pii x) := by
  rw [scrub_pii_unfold, ← mCC]
  exact reSub_self_clean ccBody _ Char.isDigit (by decide) (by decide) (by decide) _

/-- C9: `scrub_pii` is idempotent: running the five ordered PII
substitutions a second time over an already-scrubbed string changes
nothing, because a scrubbed string contains no match of any of the five
patterns (the replacement markers are bracket-delimited and their
interiors contain no digit and no at-sign, so no pattern can match into
or across a marker, and any match in the retained text would contradict
the leftmost-scan of the first pass). -/
theorem C9_scrub_idempotent (x : List Char) : scrub_pii (scrub_pii x) = scrub_pii x := by
  have h1 := scrub_clean_ssn x
  have h2 := scrub_clean_phone x
  have h3 := scrub_clean_email x
  have h4 := scrub_clean_dob x
  have h5 := scrub_clean_cc x
  rw [scrub_pii_unfold (scrub_pii x)]
  rw [reSub_id ssnBody _ _ h1, reSub_id phoneBody _ _ h2, reSub_id emailBody _ _ h3,
    reSub_id dobBody _ _ h4, reSub_id ccBody _ _ h5]
